import Mathlib

/-!
# gcc2msvc: a shallow embedding of `src/main.cpp`

The program translates a GCC-style command line into a command line for
msvc's `cl.exe`.  This file embeds the path translator (`win_path`,
`unix_path`), the argument scan of `main`, the environment overlay
(`split_env`) and the final command assembly, and proves properties of them.

Conventions of the embedding:

* a C string (`char *`, `std::string`) is the list of its characters, the
  terminating NUL excluded; a Lean `Char` stands for one C `char`;
* `ch[k]` is `charAt ch k`, which yields the terminator for `k = strlen ch`;
* a pointer offset `arg+k` is `offset arg k`, defined only for `k ≤ strlen arg`;
  the three reads of the `-Wl` chain that can lie behind the token are read a
  second time in the argument block (`argvOffset`, `stepBlock`, `scanBlock`);
* `std::string::substr` throws `std::out_of_range` when the start position
  lies behind the end of the string; this is the fault `outOfRange`;
* the macros of the absent `config.h` are the fields of `Config`;
* the process environment is the record `Env`.
-/

namespace Gcc2msvc

/-- A C string: its characters, without the terminating NUL. -/
abbrev Str := List Char

/-- The string terminator. -/
def NUL : Char := Char.ofNat 0

/-- A well-formed C string holds no NUL character. -/
def CStr (s : Str) : Prop := NUL ∉ s

instance instDecidableCStr (s : Str) : Decidable (CStr s) :=
  inferInstanceAs (Decidable (NUL ∉ s))

/-- Ways in which the C++ program can leave defined behaviour or abort. -/
inductive Fault where
  | nullDeref
  | outOfBounds
  | outOfRange
  deriving DecidableEq, Repr

/-- The value of `static int maxlen = 4096;` (main.cpp line 75). -/
def maxlen : Nat := 4096

/-- The C function `strlen`. -/
def strlen (s : Str) : Nat := s.length

/-- The read `s[k]`: a character of the string, or the terminator. -/
def charAt (s : Str) (k : Nat) : Char := s.getD k NUL

/-- The test `strncmp(p, str, n) == 0` for `n = strlen(str)`. -/
def strncmp_eq (p str : Str) (n : Nat) : Bool := p.take n == str.take n

/-- The function `begins` (main.cpp lines 78-87): `p` starts with `str` and is longer. -/
def begins (p str : Str) : Bool :=
  let n := strlen str
  if strncmp_eq p str n && strlen p > n then true else false

/-- The test `strchr(table, c) != NULL`; `strchr` also finds the terminator. -/
def strchr (table : Str) (c : Char) : Bool := table.contains c || c == NUL

/-- The text `snprintf(buf, size, ...)` leaves in `buf`: at most `size - 1` characters. -/
def snprintf (size : Nat) (formatted : Str) : Str := formatted.take (size - 1)

/-- The function `win_path` (main.cpp lines 92-135). -/
def win_path (ch : Str) : Str :=
  if charAt ch 0 == '/' then
    let prepend := true
    let r : Bool × Str :=
      if begins ch "/mnt/".toList then
        if strchr "cdefghijklmnopqrstuvwxyzab".toList (charAt ch 5) then
          if strlen ch == 6 then
            (false, snprintf (maxlen - 1) (charAt ch 5 :: ":/".toList))
          else if charAt ch 6 == '/' then
            (false, snprintf (maxlen - 1) (charAt ch 5 :: ":/".toList ++ ch.drop 7))
          else (prepend, [])
        else (prepend, [])
      else (prepend, [])
    if r.1 then snprintf (maxlen - 1) ('.' :: ch) else r.2
  else ch

/-- The method `std::string::substr(pos, n)`; `n = none` is the default `npos`. -/
def substr (s : Str) (pos : Nat) (n : Option Nat) : Except Fault Str :=
  if pos > s.length then .error .outOfRange
  else .ok (match n with
    | some k => (s.drop pos).take k
    | none => s.drop pos)

/-- The test `drive.find_first_not_of(table) == std::string::npos`. -/
def all_of (table : Str) (drive : Str) : Bool := drive.all (fun c => table.contains c)

/-- The function `unix_path` (main.cpp lines 137-156). -/
def unix_path (str : Str) : Except Fault Str := do
  let s ← substr str 1 (some 2)
  if s == ":\\".toList || s == ":/".toList || s == ":".toList then
    let drive ← substr str 0 (some 1)
    let drive :=
      if all_of "CDEFGHIJKLMNOPQRSTUVWXYZAB".toList drive then [(charAt drive 0).toLower]
      else drive
    let tail ← substr str 2 none
    pure ("/mnt/".toList ++ drive ++ tail)
  else
    pure str

/-- Equality of results is decidable, so closed facts about them can be evaluated. -/
instance instDecEqExcept {ε α : Type} [DecidableEq ε] [DecidableEq α] :
    DecidableEq (Except ε α) := fun a b =>
  match a, b with
  | .ok x, .ok y =>
    if h : x = y then isTrue (by rw [h]) else isFalse (fun e => h (by cases e; rfl))
  | .error x, .error y =>
    if h : x = y then isTrue (by rw [h]) else isFalse (fun e => h (by cases e; rfl))
  | .ok _, .error _ => isFalse (fun e => by cases e)
  | .error _, .ok _ => isFalse (fun e => by cases e)

/-- The macros of `config.h`, which is not part of the sources. -/
structure Config where
  DEFAULT_CL_CMD_X64 : Str
  DEFAULT_CL_CMD_X86 : Str
  DEFAULT_INCLUDES : Str
  DEFAULT_LIBPATHS_X64 : Str
  DEFAULT_LIBPATHS_X86 : Str
  deriving DecidableEq, Repr

/-- The environment variables `main` reads with `getenv`; `none` is an unset variable. -/
structure Env where
  CL_CMD : Option Str
  INCLUDE : Option Str
  LIB : Option Str
  deriving DecidableEq, Repr

/-- The local variables of `main` that the argument scan reads or writes
(main.cpp lines 195-222). -/
structure State where
  cmd : Str
  lnk : Str
  driver : Str
  bits : Nat
  verbose : Bool
  print_only : Bool
  have_outname : Bool
  print_search_dirs : Bool
  print_help_cl : Bool
  print_help_link : Bool
  print_version : Bool
  do_link : Bool
  use_default_driver : Bool
  use_default_inc_paths : Bool
  default_lib_paths : Bool
  rtti : Bool
  threadsafe_statics : Bool
  deriving DecidableEq, Repr

/-- The values of the locals when the scan starts (main.cpp lines 195-222). -/
def State.init (env : Env) : State where
  cmd := []
  lnk := []
  driver := match env.CL_CMD with
    | some d => d
    | none => []
  bits := 64
  verbose := false
  print_only := false
  have_outname := false
  print_search_dirs := false
  print_help_cl := false
  print_help_link := false
  print_version := false
  do_link := true
  use_default_driver := true
  use_default_inc_paths := true
  default_lib_paths := true
  rtti := true
  threadsafe_statics := true

/-- How the scan loop can end before the last token: `--help` prints the usage
and returns 0, or the program leaves defined behaviour. -/
inductive Exit where
  | usage
  | fault (f : Fault)
  deriving DecidableEq, Repr

/-- The string `STR(arg+k)`: defined while the offset stays within the token. -/
def offset (arg : Str) (k : Nat) : Except Exit Str :=
  if k ≤ strlen arg then .ok (arg.drop k) else .error (.fault .outOfBounds)

/-- The pointer `argv[i]` after `k` increments of `i` inside one loop iteration:
the token itself, a following token, or the NULL that ends `argv`. -/
def argvAt (arg : Str) (rest : List Str) : Nat → Option Str
  | 0 => some arg
  | k + 1 => rest.get? k

/-- The call `begins(argv[i], str)`, which dereferences `argv[i]`. -/
def beginsAt (cur : Option Str) (str : Str) : Except Exit Bool :=
  match cur with
  | some p => .ok (begins p str)
  | none => .error (.fault .nullDeref)

/-- A `std::out_of_range` thrown inside the scan ends it. -/
def liftFault {α : Type} : Except Fault α → Except Exit α
  | .ok a => .ok a
  | .error f => .error (.fault f)

/-- The statement `cmd += s`. -/
def State.addCmd (st : State) (s : Str) : State := { st with cmd := st.cmd ++ s }

/-- The statement `lnk += s`. -/
def State.addLnk (st : State) (s : Str) : State := { st with lnk := st.lnk ++ s }

/-- The branch for tokens that start with two dashes (main.cpp lines 235-248). -/
def stepLong (st : State) (arg : Str) : Except Exit (State × Nat) :=
  let str := arg
  if begins arg "--cl=".toList then do
    let d ← offset arg 5
    pure ({ st with driver := d, use_default_driver := false }, 0)
  else if str == "--verbose".toList then pure ({ st with verbose := true }, 0)
  else if str == "--print-only".toList then
    pure ({ st with verbose := true, print_only := true }, 0)
  else if str == "--help".toList then .error .usage
  else if begins arg "--help-".toList then
    if str == "--help-cl".toList then pure ({ st with print_help_cl := true }, 0)
    else if str == "--help-link".toList then pure ({ st with print_help_link := true }, 0)
    else pure (st, 0)
  else if str == "--version".toList then pure ({ st with print_version := true }, 0)
  else pure (st, 0)

/-- The chain on the linker option `lopt` of a `-Wl...` token (main.cpp lines
380-419); `k` counts the increments of `i` made so far in this iteration. -/
def stepWl (st : State) (arg : Str) (rest : List Str) (k : Nat) (lopt : Str) :
    Except Exit (State × Nat) :=
  let str := arg
  if lopt == "--whole-archive".toList then
    pure (st.addLnk " /wholearchive".toList, k)
  else if begins lopt "--out-implib,".toList then do
    let v ← offset arg 17
    pure (st.addLnk (" /implib:'".toList ++ v ++ "'".toList), k)
  else if str == "-Wl,--out-implib".toList then
    let k := k + 1
    match argvAt arg rest k with
    | some v =>
      if begins v "-Wl,".toList then do
        let t ← offset v 4
        pure (st.addLnk (" /implib:'".toList ++ t ++ "'".toList), k)
      else pure (st, k)
    | none => pure (st, k)
  else if begins lopt "-output-def,".toList then do
    let v ← offset arg 16
    pure (st.addLnk (" /def:'".toList ++ v ++ "'".toList), k)
  else if str == "-Wl,-output-def".toList then
    let k := k + 1
    match argvAt arg rest k with
    | some v =>
      if begins v "-Wl,".toList then do
        let t ← offset v 4
        pure (st.addLnk (" /def:'".toList ++ t ++ "'".toList), k)
      else pure (st, k)
    | none => pure (st, k)
  else if str == "-Wlink".toList then
    let k := k + 1
    match argvAt arg rest k with
    | some v => pure (st.addLnk (" ".toList ++ v), k)
    | none => pure (st, k)
  else do
    let b ← beginsAt (argvAt arg rest k) "-Wlink,".toList
    if b then do
      let v ← offset arg 7
      pure (st.addLnk (" ".toList ++ v), k)
    else pure (st, k)

/-- The linker option of a `-Wl...` token (main.cpp lines 370-378): the next
token for the bare `-Wl` (empty when there is none), else the text behind
`-Wl` and one more character. -/
def linker_opt (arg : Str) (rest : List Str) : Except Exit Str :=
  if strlen arg == 3 then
    pure (match argvAt arg rest 1 with
      | some v => v
      | none => [])
  else offset arg 4

/-- The branch `arg[1] == 'W' && len > 2` (main.cpp lines 366-437). -/
def stepW (st : State) (arg : Str) (rest : List Str) : Except Exit (State × Nat) :=
  let len := strlen arg
  let str := arg
  if charAt arg 2 == 'l' then do
    let k := if len == 3 then 1 else 0
    let lopt ← linker_opt arg rest
    stepWl st arg rest k lopt
  else if str == "-Wcl".toList then
    match argvAt arg rest 1 with
    | some v => pure (st.addCmd (" ".toList ++ v), 1)
    | none => pure (st, 1)
  else do
    let b ← beginsAt (argvAt arg rest 0) "-Wcl,".toList
    if b then do
      let v ← offset arg 5
      pure (st.addCmd (" ".toList ++ v), 0)
    else if str == "-Wall".toList then pure (st.addCmd " /W3".toList, 0)
    else if str == "-Wextra".toList then pure (st.addCmd " /Wall".toList, 0)
    else if str == "-Werror".toList then pure (st.addCmd " /WX".toList, 0)
    else pure (st, 0)

/-- The branch `arg[1] == 'm' && len > 2` (main.cpp lines 440-449). -/
def stepM (st : State) (arg : Str) : Except Exit (State × Nat) :=
  let str := arg
  if str == "-m32".toList then pure ({ st with bits := 32 }, 0)
  else if str == "-mdll".toList then pure (st.addCmd " /LD".toList, 0)
  else if str == "-msse".toList then pure (st.addCmd " /arch:SSE".toList, 0)
  else if str == "-msse2".toList then pure (st.addCmd " /arch:SSE2".toList, 0)
  else if str == "-mavx".toList then pure (st.addCmd " /arch:AVX".toList, 0)
  else if str == "-mavx2".toList then pure (st.addCmd " /arch:AVX2".toList, 0)
  else pure (st, 0)

/-- The branch `arg[1] == 'f' && len > 2` (main.cpp lines 455-481). -/
def stepF (st : State) (arg : Str) : Except Exit (State × Nat) :=
  let str := arg
  if begins arg "-fno-".toList then
    if str == "-fno-rtti".toList then pure ({ st with rtti := false }, 0)
    else if str == "-fno-threadsafe-statics".toList then
      pure ({ st with threadsafe_statics := false }, 0)
    else if str == "-fno-inline".toList then pure (st.addCmd " /Ob0".toList, 0)
    else pure (st, 0)
  else
    if str == "-fomit-frame-pointer".toList then pure (st.addCmd " /Oy".toList, 0)
    else if str == "-fpermissive".toList then pure (st.addCmd " /permissive".toList, 0)
    else if str == "-finline-functions".toList then pure (st.addCmd " /Ob2".toList, 0)
    else if str == "-fopenmp".toList then pure (st.addCmd " /openmp".toList, 0)
    else if str == "-fstack-protector".toList || str == "-fstack-check".toList then
      pure (st.addCmd " /GS".toList, 0)
    else if str == "-funsigned-char".toList then pure (st.addCmd " /J".toList, 0)
    else if str == "-fsized-deallocation".toList then
      pure (st.addCmd " /Zc:sizedDealloc".toList, 0)
    else if begins arg "-fconstexpr-depth=".toList then do
      let v ← offset arg 18
      pure (st.addCmd (" /constexpr:depth".toList ++ v), 0)
    else if begins arg "-ffp-contract=".toList then do
      let v ← offset arg 14
      if v == "fast".toList then pure (st.addCmd " /fp:fast".toList, 0)
      else if v == "off".toList then pure (st.addCmd " /fp:strict".toList, 0)
      else pure (st, 0)
    else if str == "-fwhole-program".toList then pure (st.addCmd " /GL".toList, 0)
    else pure (st, 0)

/-- The branch `arg[1] == 'n' && len > 8` (main.cpp lines 484-491). -/
def stepN (st : State) (arg : Str) : Except Exit (State × Nat) :=
  let str := arg
  if str == "-nostdinc".toList || str == "-nostdinc++".toList then
    pure ({ st with use_default_inc_paths := false }, 0)
  else if str == "-nostdlib".toList then pure ({ st with default_lib_paths := false }, 0)
  else if str == "-nodefaultlibs".toList then
    pure ({ st.addLnk " /nodefaultlib".toList with default_lib_paths := false }, 0)
  else pure (st, 0)

/-- The branch `arg[1] == 's' && len > 5` (main.cpp lines 494-502). -/
def stepS (st : State) (arg : Str) : Except Exit (State × Nat) :=
  let str := arg
  if str == "-shared".toList then pure (st.addCmd " /LD".toList, 0)
  else if begins arg "-std=".toList then
    if begins arg "-std=gnu".toList then do
      let v ← offset arg 8
      pure (st.addCmd (" /std:c".toList ++ v), 0)
    else do
      let v ← offset arg 5
      pure (st.addCmd (" /std:".toList ++ v), 0)
  else pure (st, 0)

/-- The branch for tokens that start with one dash (main.cpp lines 251-523). -/
def stepShort (st : State) (arg : Str) (rest : List Str) : Except Exit (State × Nat) :=
  let len := strlen arg
  let str := arg
  if (charAt arg 1 == '?' || charAt arg 1 == 'h') && (len == 2 || str == "-help".toList) then
    .error .usage
  else if str == "-c".toList || str == "-C".toList || str == "-w".toList then do
    let a ← offset arg 1
    let st := st.addCmd (" /".toList ++ a)
    if str == "-c".toList then pure ({ st with do_link := false }, 0)
    else pure (st, 0)
  else if str == "-g".toList then pure (st.addCmd " /Zi".toList, 0)
  else if charAt arg 1 == 'x' then
    if len == 2 then
      match argvAt arg rest 1 with
      | some v =>
        if v == "c".toList then pure (st.addCmd " /TC".toList, 1)
        else if v == "c++".toList then pure (st.addCmd " /TP".toList, 1)
        else pure (st, 1)
      | none => pure (st, 1)
    else if str == "-xc".toList then pure (st.addCmd " /TC".toList, 0)
    else if str == "-xc++".toList then pure (st.addCmd " /TP".toList, 0)
    else pure (st, 0)
  else if charAt arg 1 == 'o' then
    if len == 2 then
      match argvAt arg rest 1 with
      | some v =>
        pure ({ st.addLnk (" /out:'".toList ++ v ++ "'".toList) with have_outname := true }, 1)
      | none => pure ({ st with have_outname := true }, 1)
    else do
      let v ← offset arg 2
      pure ({ st.addLnk (" /out:'".toList ++ v ++ "'".toList) with have_outname := true }, 0)
  else if charAt arg 1 == 'I' then
    if len == 2 then
      match argvAt arg rest 1 with
      | some v => pure (st.addCmd (" /I'".toList ++ win_path v ++ "'".toList), 1)
      | none => pure (st, 1)
    else do
      let v ← offset arg 2
      pure (st.addCmd (" /I'".toList ++ win_path v ++ "'".toList), 0)
  else if charAt arg 1 == 'D' || charAt arg 1 == 'U' then
    if len == 2 then
      match argvAt arg rest 1 with
      | some v => do
        let f ← liftFault (substr str 1 (some 1))
        pure (st.addCmd (" /".toList ++ f ++ "'".toList ++ v ++ "'".toList), 1)
      | none => pure (st, 1)
    else do
      let f ← liftFault (substr str 1 (some 1))
      let v ← offset arg 2
      pure (st.addCmd (" /".toList ++ f ++ "'".toList ++ v ++ "'".toList), 0)
  else if charAt arg 1 == 'L' then
    if len == 2 then
      match argvAt arg rest 1 with
      | some v => pure (st.addLnk (" /libpath:'".toList ++ win_path v ++ "'".toList), 1)
      | none => pure (st, 1)
    else do
      let v ← offset arg 2
      pure (st.addLnk (" /libpath:'".toList ++ win_path v ++ "'".toList), 0)
  else if charAt arg 1 == 'l' && len > 2 then
    if str == "-lmsvcrt".toList then pure (st.addCmd " /MD".toList, 0)
    else if str == "-llibcmt".toList then pure (st.addCmd " /MT".toList, 0)
    else if str != "-lc".toList && str != "-lm".toList && str != "-lrt".toList &&
        str != "-lstdc++".toList && str != "-lgcc_s".toList then do
      let v ← offset arg 2
      pure (st.addLnk (" '".toList ++ v ++ ".lib'".toList), 0)
    else pure (st, 0)
  else if charAt arg 1 == 'O' && len == 3 then
    if charAt arg 2 == '1' || charAt arg 2 == '2' then pure (st.addCmd " /O2 /Ot".toList, 0)
    else if charAt arg 2 == '3' then pure (st.addCmd " /Ox".toList, 0)
    else if charAt arg 2 == 's' then pure (st.addCmd " /O1 /Os".toList, 0)
    else if charAt arg 2 == '0' then pure (st.addCmd " /Od".toList, 0)
    else pure (st, 0)
  else if charAt arg 1 == 'W' && len > 2 then stepW st arg rest
  else if charAt arg 1 == 'm' && len > 2 then stepM st arg
  else if charAt arg 1 == 'f' && len > 2 then stepF st arg
  else if charAt arg 1 == 'n' && len > 8 then stepN st arg
  else if charAt arg 1 == 's' && len > 5 then stepS st arg
  else if str == "-include".toList then
    match argvAt arg rest 1 with
    | some v => pure (st.addCmd (" /FI'".toList ++ v ++ "'".toList), 1)
    | none => pure (st, 1)
  else if str == "-trigraphs".toList then pure (st.addCmd " /Zc:trigraphs".toList, 0)
  else if str == "-print-search-dirs".toList then pure ({ st with print_search_dirs := true }, 0)
  else pure (st, 0)

/-- One iteration of the scan loop (main.cpp lines 229-529) on the token `arg`,
with `rest` the tokens behind it.  The result is the new state and the number
of times the body incremented `i`. -/
def step (st : State) (arg : Str) (rest : List Str) : Except Exit (State × Nat) :=
  if charAt arg 0 == '-' then
    if charAt arg 1 == '-' then stepLong st arg
    else stepShort st arg rest
  else
    pure (st.addCmd (" '".toList ++ win_path arg ++ "'".toList), 0)

/-- The loop `for (int i = 1; i < argc; ++i)` (main.cpp line 227) over the tokens
`argv[1..]`; the first argument counts the tokens the last iteration consumed
as values, which the loop passes over. -/
def scanFrom : Nat → State → List Str → Except Exit State
  | _, st, [] => .ok st
  | k + 1, st, _ :: rest => scanFrom k st rest
  | 0, st, arg :: rest =>
    match step st arg rest with
    | .ok (st', k) => scanFrom k st' rest
    | .error e => .error e

/-- The whole argument scan, from the initial values of the locals. -/
def scan (env : Env) (args : List Str) : Except Exit State :=
  scanFrom 0 (State.init env) args

/-- The loop heads of the scan: each token the loop body runs on (the tokens
scanned as a flag or an operand, not those consumed as a value), with the state
the body starts from. -/
def scanTrace : Nat → State → List Str → List (State × Str)
  | _, _, [] => []
  | k + 1, st, _ :: rest => scanTrace k st rest
  | 0, st, arg :: rest =>
    (st, arg) :: (match step st arg rest with
      | .ok (st', k) => scanTrace k st' rest
      | .error _ => [])

/-- The token `tok` is scanned as a flag or operand somewhere in `args`. -/
def scannedIn (env : Env) (tok : Str) (args : List Str) : Bool :=
  (scanTrace 0 (State.init env) args).any (fun p => p.2 == tok)

/-- The tokens `strtok(env, ";")` and the following `strtok(NULL, ";")` calls
return: the non-empty pieces between the delimiters. -/
def strtok_all (delim : Char) (s : Str) : List Str :=
  (s.splitOn delim).filter (fun t => !t.isEmpty)

/-- The function `split_env` (main.cpp lines 158-170); `env_var` is the result
of `getenv`. -/
def split_env (env_var : Option Str) (msvc_arg : Str) (str : Str) : Str :=
  match env_var with
  | none => str
  | some e =>
    (strtok_all ';' e).foldl
      (fun acc token => acc ++ (" /".toList ++ msvc_arg ++ "'".toList ++ win_path token ++ "'".toList))
      str

/-- The position `driver.find_last_of(set)`; `none` is `npos`. -/
def find_last_of (s set : Str) : Option Nat :=
  ((List.range s.length).reverse).find? (fun i => set.contains (charAt s i))

/-- The string `driver.substr(0, driver.find_last_of("/\\"))`. -/
def dir_part (driver : Str) : Str :=
  match find_last_of driver "/\\".toList with
  | some k => driver.take k
  | none => driver

/-- The final command (main.cpp lines 585-603), from the state the scan left,
the defaults selected for the bit width and the resolved driver. -/
def assemble (includes_default lib_paths_default : Str) (env : Env) (st : State)
    (driver : Str) : Str :=
  let cmd := st.cmd
  let lnk := st.lnk
  let cmd := split_env env.INCLUDE "I".toList cmd
  let cmd := split_env env.LIB "libpath".toList cmd
  let cmd := if st.rtti then " /GR".toList ++ cmd else cmd
  let cmd := if st.threadsafe_statics then " /Zc:threadSafeInit".toList ++ cmd else cmd
  let cmd := if st.use_default_inc_paths then cmd ++ (" ".toList ++ includes_default) else cmd
  let cmd :=
    if st.do_link then
      let lnk := if !st.have_outname then lnk ++ " /out:'a.exe'".toList else lnk
      let lnk := if st.default_lib_paths then lnk ++ (" ".toList ++ lib_paths_default) else lnk
      cmd ++ (" /link".toList ++ lnk)
    else cmd
  "'".toList ++ driver ++ "'".toList ++ cmd

/-- What a run of `main` does in the end. -/
inductive Outcome where
  /-- The usage text is printed, `main` returns 0. -/
  | usage
  /-- The statement `return system(cmd)`. -/
  | system (cmd : Str)
  /-- The three lines of `-print-search-dirs` are printed, `main` returns 0. -/
  | searchDirs (cl includes libraries : Str)
  /-- Print-only: `main` returns 0 without running `cmd`; `echo` tells whether it was printed. -/
  | printed (echo : Bool) (cmd : Str)
  /-- The command `cmd` is run in a forked shell; `echo` tells whether it was printed first. -/
  | exec (echo : Bool) (cmd : Str)
  /-- The program left defined behaviour or aborted on an exception. -/
  | fault (f : Fault)
  deriving DecidableEq, Repr

/-- A run of `main`: whether the `-m32` warning was written, and the outcome. -/
structure Run where
  warned : Bool
  outcome : Outcome
  deriving DecidableEq, Repr

/-- The value of `driver_default` behind the scan (main.cpp lines 196, 532-540). -/
def driver_default (cfg : Config) (st : State) : Str :=
  if st.bits == 32 then cfg.DEFAULT_CL_CMD_X86 else cfg.DEFAULT_CL_CMD_X64

/-- The value of `lib_paths_default` behind the scan (main.cpp lines 198, 532-540). -/
def lib_paths_default (cfg : Config) (st : State) : Str :=
  if st.bits == 32 then cfg.DEFAULT_LIBPATHS_X86 else cfg.DEFAULT_LIBPATHS_X64

/-- The resolved driver (main.cpp lines 541-545); `unix_path` may throw. -/
def resolve_driver (cfg : Config) (st : State) : Except Fault Str :=
  unix_path (if st.use_default_driver then driver_default cfg st else st.driver)

/-- The part of `main` behind the scan (main.cpp lines 532-612). -/
def finish (cfg : Config) (env : Env) (st : State) : Run :=
  let warned := st.bits == 32 && !st.use_default_driver
  match resolve_driver cfg st with
  | .error f => ⟨warned, .fault f⟩
  | .ok driver =>
    if st.print_help_cl then
      ⟨warned, .system ("'".toList ++ driver ++ "' /help 2>&1 | cat".toList)⟩
    else if st.print_help_link then
      ⟨warned, .system ("'".toList ++ dir_part driver ++ "/link.exe' 2>&1 | cat".toList)⟩
    else if st.print_version then
      let cmd :=
        if st.use_default_driver then
          "'".toList ++ cfg.DEFAULT_CL_CMD_X64 ++ "' /help 2>&1 | head -n3 ; ".toList ++
            ("'".toList ++ cfg.DEFAULT_CL_CMD_X86 ++ "' /help 2>&1 | head -n3 ; ".toList)
        else "'".toList ++ driver ++ "' /help 2>&1 | head -n3 ; ".toList
      ⟨warned, .system (cmd ++ ("'".toList ++ dir_part driver ++
        "/link.exe' 2>&1 | head -n3".toList))⟩
    else if st.print_search_dirs then
      ⟨warned, .searchDirs (driver_default cfg st) cfg.DEFAULT_INCLUDES (lib_paths_default cfg st)⟩
    else
      let cmd := assemble cfg.DEFAULT_INCLUDES (lib_paths_default cfg st) env st driver
      if st.print_only then ⟨warned, .printed st.verbose cmd⟩
      else ⟨warned, .exec st.verbose cmd⟩

/-- The function `main` (main.cpp lines 188-648) up to the hand-over of the
command to the shell; `args` is `argv[1..argc-1]`. -/
def main (cfg : Config) (env : Env) (args : List Str) : Run :=
  match scan env args with
  | .error .usage => ⟨false, .usage⟩
  | .error (.fault f) => ⟨false, .fault f⟩
  | .ok st => finish cfg env st

/-- A sample of the values `config.h` could give, for evaluating `main` on
concrete command lines. -/
def sampleConfig : Config where
  DEFAULT_CL_CMD_X64 := "C:/VC/bin/amd64/cl.exe".toList
  DEFAULT_CL_CMD_X86 := "C:/VC/bin/cl.exe".toList
  DEFAULT_INCLUDES := "/I'c:/VC/include'".toList
  DEFAULT_LIBPATHS_X64 := "/libpath:'c:/VC/lib/amd64'".toList
  DEFAULT_LIBPATHS_X86 := "/libpath:'c:/VC/lib'".toList

/-- Every state a loop iteration can produce satisfies `R`. -/
def Yields (R : State → Prop) (r : Except Exit (State × Nat)) : Prop :=
  ∀ st' k, r = .ok (st', k) → R st'

/-- The scan loop with its cursor at the end: the state the loop leaves, and
how many value tokens the last iterations still wanted when `argv` ran out
(`i - argc` behind the loop). -/
def scanEnd : Nat → State → List Str → Except Exit (State × Nat)
  | k, st, [] => .ok (st, k)
  | k + 1, st, _ :: rest => scanEnd k st rest
  | 0, st, arg :: rest =>
    match step st arg rest with
    | .ok (st', k) => scanEnd k st' rest
    | .error e => .error e

/-- The scan of `xs` ends exactly at its last token: the loop runs to the end
without an early return or a fault, and no iteration asks for a value token
behind the last one. -/
def endsExactly (env : Env) (xs : List Str) : Bool :=
  match scanEnd 0 (State.init env) xs with
  | .ok (_, 0) => true
  | _ => false

/-- Whatever the first run yields without consuming a value token, the second
run yields too. -/
def NoLook (r r' : Except Exit (State × Nat)) : Prop :=
  ∀ s, r = .ok (s, 0) → r' = .ok (s, 0)

/-- Two runs end alike: both leave a state, the two states related by `Q` and
the same number of value tokens consumed, or both end early in the same way. -/
def Related (Q : State → State → Prop) (r r' : Except Exit (State × Nat)) : Prop :=
  match r, r' with
  | .ok (s, k), .ok (s', k') => Q s s' ∧ k = k'
  | .error e, .error e' => e = e'
  | _, _ => False

/-- The mode flags of `s` have moved from those of `st` in their one direction
only: a flag that had left its default in `st` has not come back to it in `s`. -/
def ModeOrder (st s : State) : Prop :=
  (st.do_link = false → s.do_link = false)
  ∧ (st.rtti = false → s.rtti = false)
  ∧ (st.threadsafe_statics = false → s.threadsafe_statics = false)
  ∧ (st.use_default_inc_paths = false → s.use_default_inc_paths = false)
  ∧ (st.default_lib_paths = false → s.default_lib_paths = false)
  ∧ (st.have_outname = true → s.have_outname = true)
  ∧ (st.bits = 32 → s.bits = 32)
  ∧ (st.print_only = true → s.print_only = true)
  ∧ (st.verbose = true → s.verbose = true)
  ∧ (st.use_default_driver = false → s.use_default_driver = false)

/-- The two runs, when both leave a state, leave the same locals apart from the
two streams. -/
def SameModes (r r' : Except Exit (State × Nat)) : Prop :=
  ∀ (s s' : State) (k k' : Nat), r = .ok (s, k) → r' = .ok (s', k') →
    { s with cmd := [], lnk := [] } = { s' with cmd := [], lnk := [] }

/-- The command an outcome hands to a shell, by `system` or by the forked
`/bin/sh -c`; `none` when nothing is executed. -/
def Outcome.executes : Outcome → Option Str
  | .usage => none
  | .system cmd => some cmd
  | .searchDirs _ _ _ => none
  | .printed _ _ => none
  | .exec _ cmd => some cmd
  | .fault _ => none

/-- The text a run writes to standard output as its assembled command
(main.cpp lines 605-608); `none` when no command is echoed. -/
def Outcome.echoed : Outcome → Option Str
  | .printed true cmd => some cmd
  | .exec true cmd => some cmd
  | _ => none

/-- What becomes of the forked child (main.cpp lines 621-625): `execl` fails and
the child calls `_exit(127)`, or the shell runs and exits with a code, or it is
ended by a signal. -/
inductive Child where
  | execFailed
  | exited (code : Nat)
  | signalled
  deriving DecidableEq, Repr

/-- What `fork` and `waitpid` give the parent (main.cpp lines 619, 629). -/
inductive Spawn where
  | forkFailed
  | waitFailed
  | waited (c : Child)
  deriving DecidableEq, Repr

/-- The wait status of a child: `some code` when `WIFEXITED(status)` holds, with
`code = WEXITSTATUS(status)`, the low eight bits of the exit code. -/
def wait_exited : Child → Option Nat
  | .execFailed => some 127
  | .exited code => some (code % 256)
  | .signalled => none

/-- The value `main` returns behind the fork (main.cpp lines 617-647), with the
message it writes to the error stream. -/
def invoke (sp : Spawn) : Nat × Option Str :=
  let ret := 1
  match sp with
  | .waited c =>
    match wait_exited c with
    | some code =>
      if code == 127 then (code, some "execl() failed".toList) else (code, none)
    | none => (ret, some "the program did not terminate normally".toList)
  | .waitFailed => (ret, some "waitpid() failed".toList)
  | .forkFailed => (ret, some "failed to fork()".toList)

/-! ### The `-Wl` reads in the argument block

The three reads `arg+17`, `arg+16` and `arg+7` of the `-Wl` chain (main.cpp
lines 387, 399, 418) are made on `arg`, the token the iteration started on, also
when the linker option came from the following token.  What they yield then
depends on where the tokens lie in memory.  The process start-up stores the
strings of `argv` one behind the other, each with its terminator, so that
`argv[i+1] == argv[i] + strlen(argv[i]) + 1`.  The definitions below read the
three offsets in that block; everything else in them is the code of `stepWl`,
`stepW`, `stepShort`, `step`, `scanFrom` and `scan` as above. -/

/-- The string `STR(arg+k)` read in the argument block: `arg` is followed by its
terminator and then by the tokens of `rest`, each with its terminator.  Behind
the last token the block of `argv` ends. -/
def argvOffset : Str → List Str → Nat → Except Exit Str
  | arg, [], k => offset arg k
  | arg, v :: tl, k =>
    if k ≤ strlen arg then .ok (arg.drop k) else argvOffset v tl (k - (strlen arg + 1))

/-- The chain of `stepWl` (main.cpp lines 380-419) with `arg+17`, `arg+16` and
`arg+7` read in the argument block. -/
def stepWlBlock (st : State) (arg : Str) (rest : List Str) (k : Nat) (lopt : Str) :
    Except Exit (State × Nat) :=
  let str := arg
  if lopt == "--whole-archive".toList then
    pure (st.addLnk " /wholearchive".toList, k)
  else if begins lopt "--out-implib,".toList then do
    let v ← argvOffset arg rest 17
    pure (st.addLnk (" /implib:'".toList ++ v ++ "'".toList), k)
  else if str == "-Wl,--out-implib".toList then
    let k := k + 1
    match argvAt arg rest k with
    | some v =>
      if begins v "-Wl,".toList then do
        let t ← offset v 4
        pure (st.addLnk (" /implib:'".toList ++ t ++ "'".toList), k)
      else pure (st, k)
    | none => pure (st, k)
  else if begins lopt "-output-def,".toList then do
    let v ← argvOffset arg rest 16
    pure (st.addLnk (" /def:'".toList ++ v ++ "'".toList), k)
  else if str == "-Wl,-output-def".toList then
    let k := k + 1
    match argvAt arg rest k with
    | some v =>
      if begins v "-Wl,".toList then do
        let t ← offset v 4
        pure (st.addLnk (" /def:'".toList ++ t ++ "'".toList), k)
      else pure (st, k)
    | none => pure (st, k)
  else if str == "-Wlink".toList then
    let k := k + 1
    match argvAt arg rest k with
    | some v => pure (st.addLnk (" ".toList ++ v), k)
    | none => pure (st, k)
  else do
    let b ← beginsAt (argvAt arg rest k) "-Wlink,".toList
    if b then do
      let v ← argvOffset arg rest 7
      pure (st.addLnk (" ".toList ++ v), k)
    else pure (st, k)

/-- The branch `arg[1] == 'W' && len > 2` (main.cpp lines 366-437), as `stepW`,
with the `-Wl` chain read in the argument block. -/
def stepWBlock (st : State) (arg : Str) (rest : List Str) : Except Exit (State × Nat) :=
  let len := strlen arg
  let str := arg
  if charAt arg 2 == 'l' then do
    let k := if len == 3 then 1 else 0
    let lopt ← linker_opt arg rest
    stepWlBlock st arg rest k lopt
  else if str == "-Wcl".toList then
    match argvAt arg rest 1 with
    | some v => pure (st.addCmd (" ".toList ++ v), 1)
    | none => pure (st, 1)
  else do
    let b ← beginsAt (argvAt arg rest 0) "-Wcl,".toList
    if b then do
      let v ← offset arg 5
      pure (st.addCmd (" ".toList ++ v), 0)
    else if str == "-Wall".toList then pure (st.addCmd " /W3".toList, 0)
    else if str == "-Wextra".toList then pure (st.addCmd " /Wall".toList, 0)
    else if str == "-Werror".toList then pure (st.addCmd " /WX".toList, 0)
    else pure (st, 0)

/-- The branch for tokens that start with one dash (main.cpp lines 251-523), as
`stepShort`, with the `-Wl` chain read in the argument block. -/
def stepShortBlock (st : State) (arg : Str) (rest : List Str) : Except Exit (State × Nat) :=
  let len := strlen arg
  let str := arg
  if (charAt arg 1 == '?' || charAt arg 1 == 'h') && (len == 2 || str == "-help".toList) then
    .error .usage
  else if str == "-c".toList || str == "-C".toList || str == "-w".toList then do
    let a ← offset arg 1
    let st := st.addCmd (" /".toList ++ a)
    if str == "-c".toList then pure ({ st with do_link := false }, 0)
    else pure (st, 0)
  else if str == "-g".toList then pure (st.addCmd " /Zi".toList, 0)
  else if charAt arg 1 == 'x' then
    if len == 2 then
      match argvAt arg rest 1 with
      | some v =>
        if v == "c".toList then pure (st.addCmd " /TC".toList, 1)
        else if v == "c++".toList then pure (st.addCmd " /TP".toList, 1)
        else pure (st, 1)
      | none => pure (st, 1)
    else if str == "-xc".toList then pure (st.addCmd " /TC".toList, 0)
    else if str == "-xc++".toList then pure (st.addCmd " /TP".toList, 0)
    else pure (st, 0)
  else if charAt arg 1 == 'o' then
    if len == 2 then
      match argvAt arg rest 1 with
      | some v =>
        pure ({ st.addLnk (" /out:'".toList ++ v ++ "'".toList) with have_outname := true }, 1)
      | none => pure ({ st with have_outname := true }, 1)
    else do
      let v ← offset arg 2
      pure ({ st.addLnk (" /out:'".toList ++ v ++ "'".toList) with have_outname := true }, 0)
  else if charAt arg 1 == 'I' then
    if len == 2 then
      match argvAt arg rest 1 with
      | some v => pure (st.addCmd (" /I'".toList ++ win_path v ++ "'".toList), 1)
      | none => pure (st, 1)
    else do
      let v ← offset arg 2
      pure (st.addCmd (" /I'".toList ++ win_path v ++ "'".toList), 0)
  else if charAt arg 1 == 'D' || charAt arg 1 == 'U' then
    if len == 2 then
      match argvAt arg rest 1 with
      | some v => do
        let f ← liftFault (substr str 1 (some 1))
        pure (st.addCmd (" /".toList ++ f ++ "'".toList ++ v ++ "'".toList), 1)
      | none => pure (st, 1)
    else do
      let f ← liftFault (substr str 1 (some 1))
      let v ← offset arg 2
      pure (st.addCmd (" /".toList ++ f ++ "'".toList ++ v ++ "'".toList), 0)
  else if charAt arg 1 == 'L' then
    if len == 2 then
      match argvAt arg rest 1 with
      | some v => pure (st.addLnk (" /libpath:'".toList ++ win_path v ++ "'".toList), 1)
      | none => pure (st, 1)
    else do
      let v ← offset arg 2
      pure (st.addLnk (" /libpath:'".toList ++ win_path v ++ "'".toList), 0)
  else if charAt arg 1 == 'l' && len > 2 then
    if str == "-lmsvcrt".toList then pure (st.addCmd " /MD".toList, 0)
    else if str == "-llibcmt".toList then pure (st.addCmd " /MT".toList, 0)
    else if str != "-lc".toList && str != "-lm".toList && str != "-lrt".toList &&
        str != "-lstdc++".toList && str != "-lgcc_s".toList then do
      let v ← offset arg 2
      pure (st.addLnk (" '".toList ++ v ++ ".lib'".toList), 0)
    else pure (st, 0)
  else if charAt arg 1 == 'O' && len == 3 then
    if charAt arg 2 == '1' || charAt arg 2 == '2' then pure (st.addCmd " /O2 /Ot".toList, 0)
    else if charAt arg 2 == '3' then pure (st.addCmd " /Ox".toList, 0)
    else if charAt arg 2 == 's' then pure (st.addCmd " /O1 /Os".toList, 0)
    else if charAt arg 2 == '0' then pure (st.addCmd " /Od".toList, 0)
    else pure (st, 0)
  else if charAt arg 1 == 'W' && len > 2 then stepWBlock st arg rest
  else if charAt arg 1 == 'm' && len > 2 then stepM st arg
  else if charAt arg 1 == 'f' && len > 2 then stepF st arg
  else if charAt arg 1 == 'n' && len > 8 then stepN st arg
  else if charAt arg 1 == 's' && len > 5 then stepS st arg
  else if str == "-include".toList then
    match argvAt arg rest 1 with
    | some v => pure (st.addCmd (" /FI'".toList ++ v ++ "'".toList), 1)
    | none => pure (st, 1)
  else if str == "-trigraphs".toList then pure (st.addCmd " /Zc:trigraphs".toList, 0)
  else if str == "-print-search-dirs".toList then pure ({ st with print_search_dirs := true }, 0)
  else pure (st, 0)

/-- One iteration of the scan loop (main.cpp lines 229-529), as `step`, with the
`-Wl` chain read in the argument block. -/
def stepBlock (st : State) (arg : Str) (rest : List Str) : Except Exit (State × Nat) :=
  if charAt arg 0 == '-' then
    if charAt arg 1 == '-' then stepLong st arg
    else stepShortBlock st arg rest
  else
    pure (st.addCmd (" '".toList ++ win_path arg ++ "'".toList), 0)

/-- The loop `for (int i = 1; i < argc; ++i)` (main.cpp line 227), as `scanFrom`,
over iterations that read the `-Wl` chain in the argument block. -/
def scanFromBlock : Nat → State → List Str → Except Exit State
  | _, st, [] => .ok st
  | k + 1, st, _ :: rest => scanFromBlock k st rest
  | 0, st, arg :: rest =>
    match stepBlock st arg rest with
    | .ok (st', k) => scanFromBlock k st' rest
    | .error e => .error e

/-- The whole argument scan, from the initial values of the locals, with the
`-Wl` chain read in the argument block. -/
def scanBlock (env : Env) (args : List Str) : Except Exit State :=
  scanFromBlock 0 (State.init env) args

/-- Whatever the first run yields, the second run yields too. -/
def Extends (r r' : Except Exit (State × Nat)) : Prop :=
  ∀ x, r = .ok x → r' = .ok x

end Gcc2msvc

/-! ## Lemmas on letters and on the string primitives -/

namespace Gcc2msvc

theorem lower_cases (c : Char) (h : c.isLower = true) :
    c ∈ "abcdefghijklmnopqrstuvwxyz".toList := by
  have h1 : c = Char.ofNat c.toNat := (Char.ofNat_toNat c).symm
  simp [Char.isLower] at h
  obtain ⟨ha, hb⟩ := h
  have ha' : 97 ≤ c.toNat := ha
  have hb' : c.toNat ≤ 122 := hb
  generalize c.toNat = n at *
  subst h1
  interval_cases n <;> decide

theorem upper_cases (c : Char) (h : c.isUpper = true) :
    c ∈ "ABCDEFGHIJKLMNOPQRSTUVWXYZ".toList := by
  have h1 : c = Char.ofNat c.toNat := (Char.ofNat_toNat c).symm
  simp [Char.isUpper] at h
  obtain ⟨ha, hb⟩ := h
  have ha' : 65 ≤ c.toNat := ha
  have hb' : c.toNat ≤ 90 := hb
  generalize c.toNat = n at *
  subst h1
  interval_cases n <;> decide

/-- Every lowercase letter is in the drive table of `win_path`. -/
theorem strchr_lower (c : Char) (h : c.isLower = true) :
    strchr "cdefghijklmnopqrstuvwxyzab".toList c = true := by
  have := lower_cases c h
  simp only [String.toList, List.mem_cons, List.mem_nil_iff, or_false] at this
  rcases this with h | h | h | h | h | h | h | h | h | h | h | h | h | h | h | h | h | h | h |
    h | h | h | h | h | h | h <;> subst h <;> decide

/-- No uppercase letter is in the drive table of `win_path`. -/
theorem strchr_upper (c : Char) (h : c.isUpper = true) :
    strchr "cdefghijklmnopqrstuvwxyzab".toList c = false := by
  have := upper_cases c h
  simp only [String.toList, List.mem_cons, List.mem_nil_iff, or_false] at this
  rcases this with h | h | h | h | h | h | h | h | h | h | h | h | h | h | h | h | h | h | h |
    h | h | h | h | h | h | h <;> subst h <;> decide

/-- What `strchr` finds in the drive table is a lowercase letter or the terminator. -/
theorem strchr_table_cases (c : Char)
    (h : strchr "cdefghijklmnopqrstuvwxyzab".toList c = true) :
    c.isLower = true ∨ c = NUL := by
  simp only [String.toList] at h
  simp [strchr] at h
  rcases h with h | h
  · left
    rcases h with h | h | h | h | h | h | h | h | h | h | h | h | h | h | h | h | h | h | h |
      h | h | h | h | h | h | h <;> subst h <;> decide
  · right
    exact h

/-- The uppercase letters are the ones `unix_path` lower-cases. -/
theorem all_of_upper (c : Char) (h : c.isUpper = true) :
    all_of "CDEFGHIJKLMNOPQRSTUVWXYZAB".toList [c] = true := by
  have := upper_cases c h
  simp only [String.toList, List.mem_cons, List.mem_nil_iff, or_false] at this
  rcases this with h | h | h | h | h | h | h | h | h | h | h | h | h | h | h | h | h | h | h |
    h | h | h | h | h | h | h <;> subst h <;> decide

/-- A lowercase letter is left as it is by `unix_path`, and is its own lower case. -/
theorem all_of_lower (c : Char) (h : c.isLower = true) :
    all_of "CDEFGHIJKLMNOPQRSTUVWXYZAB".toList [c] = false ∧ c.toLower = c := by
  have := lower_cases c h
  simp only [String.toList, List.mem_cons, List.mem_nil_iff, or_false] at this
  rcases this with h | h | h | h | h | h | h | h | h | h | h | h | h | h | h | h | h | h | h |
    h | h | h | h | h | h | h <;> subst h <;> decide

theorem snprintf_short (n : Nat) (s : Str) (h : s.length ≤ n - 1) : snprintf n s = s := by
  unfold snprintf
  exact List.take_of_length_le h

theorem snprintf_length (n : Nat) (s : Str) : (snprintf n s).length ≤ n - 1 := by
  unfold snprintf
  simp

/-! ## The path translator -/

theorem win_path_mount_slash (l : Char) (rest : Str)
    (hl : strchr "cdefghijklmnopqrstuvwxyzab".toList l = true) :
    win_path ("/mnt/".toList ++ [l] ++ "/".toList ++ rest)
      = snprintf (maxlen - 1) ([l] ++ ":/".toList ++ rest) := by
  simp only [String.toList] at hl
  simp [win_path, begins, strncmp_eq, strlen, charAt, hl]

theorem win_path_mount_bare (l : Char)
    (hl : strchr "cdefghijklmnopqrstuvwxyzab".toList l = true) :
    win_path ("/mnt/".toList ++ [l]) = [l] ++ ":/".toList := by
  simp only [String.toList] at hl
  simp [win_path, begins, strncmp_eq, strlen, charAt, hl, snprintf, maxlen]

/-- The drive form of a lowercase mount path that fits the buffer. -/
theorem win_path_lower_fits (l : Char) (rest : Str) (hl : l.isLower = true) (hlen : rest.length ≤ 4091) :
    win_path ("/mnt/".toList ++ [l] ++ "/".toList ++ rest) = [l] ++ ":/".toList ++ rest := by
  rw [win_path_mount_slash l rest (strchr_lower l hl)]
  apply snprintf_short
  simp [maxlen]
  omega

theorem win_path_relative (ch : Str) (h : charAt ch 0 ≠ '/') : win_path ch = ch := by
  simp [win_path, h]

theorem win_path_other (ch : Str) (h0 : charAt ch 0 = '/')
    (h : begins ch "/mnt/".toList = false ∨
         strchr "cdefghijklmnopqrstuvwxyzab".toList (charAt ch 5) = false ∨
         (strlen ch ≠ 6 ∧ charAt ch 6 ≠ '/')) :
    win_path ch = snprintf (maxlen - 1) ('.' :: ch) := by
  unfold win_path
  simp only [String.toList] at h ⊢
  rcases h with h | h | ⟨h1, h2⟩
  · simp [h0, h]
  · simp [h0, h]
  · simp [h0, h1, h2]

theorem begins_mnt (p : Str) (h : begins p "/mnt/".toList = true) :
    ∃ c tl, p = "/mnt/".toList ++ c :: tl := by
  rcases p with _ | ⟨a, _ | ⟨b, _ | ⟨c, _ | ⟨d, _ | ⟨e, _ | ⟨f, tl⟩⟩⟩⟩⟩⟩ <;>
    simp [begins, strncmp_eq, strlen] at h
  obtain ⟨ha, hb, hc, hd, he⟩ := h
  subst ha hb hc hd he
  exact ⟨f, tl, rfl⟩

theorem unix_path_drive (L : Char) (rest : Str)
    (hrest : rest = [] ∨ rest.head? = some '/' ∨ rest.head? = some '\\') :
    unix_path ([L] ++ ":".toList ++ rest)
      = .ok ("/mnt/".toList ++
          (if all_of "CDEFGHIJKLMNOPQRSTUVWXYZAB".toList [L] then [L.toLower] else [L]) ++ rest) := by
  rcases hrest with h | h | h
  · subst h
    simp [unix_path, substr, bind, Except.bind, pure, Except.pure, charAt]
  · rcases rest with _ | ⟨a, tl⟩
    · simp at h
    · simp at h
      subst h
      have hlen : ¬ (tl.length + 1 + 1 + 1 < 2) := by omega
      simp [unix_path, substr, bind, Except.bind, pure, Except.pure, charAt, hlen]
  · rcases rest with _ | ⟨a, tl⟩
    · simp at h
    · simp at h
      subst h
      have hlen : ¬ (tl.length + 1 + 1 + 1 < 2) := by omega
      simp [unix_path, substr, bind, Except.bind, pure, Except.pure, charAt, hlen]

theorem unix_path_id (p : Str) (hne : p ≠ [])
    (h : ∀ c rest, p = c :: ':' :: rest →
      rest ≠ [] ∧ rest.head? ≠ some '/' ∧ rest.head? ≠ some '\\') :
    unix_path p = .ok p := by
  rcases p with _ | ⟨a, _ | ⟨b, _ | ⟨c, tl⟩⟩⟩
  · exact absurd rfl hne
  · simp [unix_path, substr, bind, Except.bind, pure, Except.pure]
  · have hb : b ≠ ':' := by
      intro hb
      subst hb
      exact (h a [] rfl).1 rfl
    simp [unix_path, substr, bind, Except.bind, pure, Except.pure, hb]
  · have hb : b = ':' → c ≠ '/' ∧ c ≠ '\\' := by
      intro hb
      subst hb
      have := h a (c :: tl) rfl
      simpa using this.2
    by_cases hb' : b = ':'
    · obtain ⟨h1, h2⟩ := hb hb'
      simp [unix_path, substr, bind, Except.bind, pure, Except.pure, hb', h1, h2]
    · simp [unix_path, substr, bind, Except.bind, pure, Except.pure, hb']

end Gcc2msvc

/-! ## Claims on the path translator -/

namespace Gcc2msvc

/-- C1, as stated, fails on a long path: `win_path` builds the drive form with
`snprintf(path, maxlen-1, ...)`, which keeps 4094 characters. For the drive `d`
and a remainder of 4092 characters the result is not `d:/` followed by the
whole remainder. -/
theorem C1_long_remainder_is_cut :
    win_path ("/mnt/".toList ++ ['d'] ++ "/".toList ++ List.replicate 4092 'a')
      ≠ ['d'] ++ ":/".toList ++ List.replicate 4092 'a' := by
  rw [win_path_mount_slash _ _ (by decide)]
  intro h
  have h1 := snprintf_length (maxlen - 1) (['d'] ++ ":/".toList ++ List.replicate 4092 'a')
  rw [h] at h1
  simp only [List.length_append, List.length_cons, List.length_nil, List.length_replicate,
    String.toList, maxlen] at h1
  omega

/-- C1 (amended): for every lowercase letter `l` and every remainder `rest` of
at most 4091 characters, `win_path("/mnt/" ++ l ++ "/" ++ rest) = l ++ ":/" ++ rest`,
and `win_path("/mnt/" ++ l) = l ++ ":/"`. -/
theorem C1_win_path_lower_drive (l : Char) (rest : Str) (hl : l.isLower = true)
    (hlen : rest.length ≤ 4091) :
    win_path ("/mnt/".toList ++ [l] ++ "/".toList ++ rest) = [l] ++ ":/".toList ++ rest
    ∧ win_path ("/mnt/".toList ++ [l]) = [l] ++ ":/".toList := by
  refine ⟨?_, win_path_mount_bare l (strchr_lower l hl)⟩
  rw [win_path_mount_slash l rest (strchr_lower l hl)]
  apply snprintf_short
  simp [maxlen]
  omega

/-- C1 at `/mnt/d/dir` and `/mnt/d`. -/
theorem C1_win_path_lower_drive_witness :
    win_path "/mnt/d/dir".toList = "d:/dir".toList ∧ win_path "/mnt/d".toList = "d:/".toList :=
  C1_win_path_lower_drive 'd' "dir".toList (by decide) (by decide)

/-- C2, as stated, fails: `/mnt/C/dir` is not rewritten to `C:/dir`; the drive
table of `win_path` holds the lowercase letters only. -/
theorem C2_uppercase_not_rewritten :
    win_path "/mnt/C/dir".toList = "./mnt/C/dir".toList
    ∧ win_path "/mnt/C/dir".toList ≠ "C:/dir".toList := by
  decide

/-- C2 (amended): an uppercase letter is not taken for a drive. For every
uppercase letter `L` and every remainder of at most 4086 characters,
`win_path("/mnt/" ++ L ++ "/" ++ rest) = "." ++ "/mnt/" ++ L ++ "/" ++ rest`: the
path is kept whole, the letter in its case, behind the relative marker. -/
theorem C2_win_path_upper_kept (L : Char) (rest : Str) (hL : L.isUpper = true)
    (hlen : rest.length ≤ 4086) :
    win_path ("/mnt/".toList ++ [L] ++ "/".toList ++ rest)
      = ".".toList ++ ("/mnt/".toList ++ [L] ++ "/".toList ++ rest) := by
  have hs := strchr_upper L hL
  rw [win_path_other _ (by simp [charAt]) (Or.inr (Or.inl (by simpa [charAt] using hs)))]
  apply snprintf_short
  simp [maxlen]
  omega

/-- C2 (amended) at `/mnt/C/dir`. -/
theorem C2_win_path_upper_kept_witness :
    win_path "/mnt/C/dir".toList = "./mnt/C/dir".toList :=
  C2_win_path_upper_kept 'C' "dir".toList (by decide) (by decide)

/-- C3, as stated, fails on a long path: for the absolute path of a slash and
4094 letters the result is cut to 4094 characters and is not `.` followed by
the whole path. -/
theorem C3_long_path_is_cut :
    win_path ('/' :: List.replicate 4094 'a') ≠ '.' :: '/' :: List.replicate 4094 'a' := by
  have hgen : ∀ tl : Str, begins ('/' :: 'a' :: tl) "/mnt/".toList = false := by
    intro tl
    simp [begins, strncmp_eq, strlen]
  have hb : begins ('/' :: List.replicate 4094 'a') "/mnt/".toList = false :=
    hgen (List.replicate 4093 'a')
  rw [win_path_other ('/' :: List.replicate 4094 'a') rfl (Or.inl hb)]
  intro h
  have h1 := snprintf_length (maxlen - 1) ('.' :: '/' :: List.replicate 4094 'a')
  rw [h] at h1
  simp only [List.length_cons, List.length_replicate, maxlen] at h1
  omega

/-- C3 (amended): for every C string `p` of at most 4093 characters that starts
with `/` and is neither `/mnt/<l>` nor `/mnt/<l>/<rest>` for a lowercase letter
`l`, `win_path(p) = "." ++ p`. -/
theorem C3_win_path_other_absolute (p : Str) (hp : CStr p) (h0 : p.head? = some '/')
    (hlen : p.length ≤ 4093)
    (hform : ∀ (l : Char) (rest : Str), l.isLower = true →
      p ≠ "/mnt/".toList ++ [l] ∧ p ≠ "/mnt/".toList ++ [l] ++ "/".toList ++ rest) :
    win_path p = ".".toList ++ p := by
  have hc0 : charAt p 0 = '/' := by
    rcases p with _ | ⟨a, tl⟩
    · simp at h0
    · simpa [charAt] using h0
  have hshort : snprintf (maxlen - 1) ('.' :: p) = ".".toList ++ p := by
    rw [snprintf_short]
    · rfl
    · simp [maxlen]
      omega
  by_cases hb : begins p "/mnt/".toList = true
  · obtain ⟨c, tl, hpc⟩ := begins_mnt p hb
    by_cases hs : strchr "cdefghijklmnopqrstuvwxyzab".toList c = true
    · rcases strchr_table_cases c hs with hlow | hnul
      · rcases tl with _ | ⟨d, tl'⟩
        · exact absurd hpc (hform c [] hlow).1
        · have hd : d ≠ '/' := by
            intro hd
            subst hd
            exact (hform c tl' hlow).2 (by simpa using hpc)
          rw [win_path_other p hc0 (Or.inr (Or.inr ?_)), hshort]
          subst hpc
          simp [strlen, charAt, hd]
      · exfalso
        apply hp
        subst hpc hnul
        simp
    · rw [win_path_other p hc0 (Or.inr (Or.inl ?_)), hshort]
      subst hpc
      simpa [charAt] using hs
  · rw [win_path_other p hc0 (Or.inl (by simpa using hb)), hshort]

/-- C3 (amended) at `/usr/include`. -/
theorem C3_win_path_other_absolute_witness :
    win_path "/usr/include".toList = "./usr/include".toList :=
  C3_win_path_other_absolute "/usr/include".toList (by decide) (by decide) (by decide)
    (by intro l rest _; constructor <;> simp)

/-- C4: for every letter `L` (A-Z or a-z) and every `rest` that is empty or
begins with `/` or `\`, `unix_path(L ++ ":" ++ rest) = "/mnt/" ++ lowercase(L) ++ rest`. -/
theorem C4_unix_path_rewrites_drive (L : Char) (rest : Str)
    (hL : L.isUpper = true ∨ L.isLower = true)
    (hrest : rest = [] ∨ rest.head? = some '/' ∨ rest.head? = some '\\') :
    unix_path ([L] ++ ":".toList ++ rest) = .ok ("/mnt/".toList ++ [L.toLower] ++ rest) := by
  rw [unix_path_drive L rest hrest]
  rcases hL with h | h
  · rw [all_of_upper L h]
    rfl
  · obtain ⟨h1, h2⟩ := all_of_lower L h
    rw [h1, h2]
    rfl

/-- C4 at `C:\dir`. -/
theorem C4_unix_path_rewrites_drive_witness :
    unix_path "C:\\dir".toList = .ok "/mnt/c\\dir".toList :=
  C4_unix_path_rewrites_drive 'C' "\\dir".toList (by decide) (by decide)

/-- C5, as stated, fails: `1:/x`, whose first character is no letter, is
rewritten to `/mnt/1/x`, and the empty string makes `substr(1,2)` throw. -/
theorem C5_non_letter_is_rewritten :
    unix_path "1:/x".toList = .ok "/mnt/1/x".toList
    ∧ unix_path "1:/x".toList ≠ .ok "1:/x".toList
    ∧ unix_path [] = .error .outOfRange := by
  decide

/-- C5 (amended): for every non-empty string `p` that is not one character
followed by `:` and then `\`, `/` or the end of the string (whatever that first
character is), `unix_path(p)` returns `p` unchanged without raising. -/
theorem C5_unix_path_identity (p : Str) (hne : p ≠ [])
    (h : ∀ (c : Char) (rest : Str), p = c :: ':' :: rest →
      rest ≠ [] ∧ rest.head? ≠ some '/' ∧ rest.head? ≠ some '\\') :
    unix_path p = .ok p :=
  unix_path_id p hne h

/-- C5 (amended) at `usr/include`. -/
theorem C5_unix_path_identity_witness :
    unix_path "usr/include".toList = .ok "usr/include".toList :=
  C5_unix_path_identity "usr/include".toList (by decide) (by intro c rest h; simp at h)

/-- C6, as stated, fails for the uppercase letters it names: from `/mnt/C/dir`
the round trip gives `./mnt/C/dir`, not `C:/dir`. -/
theorem C6_round_trip_upper_fails :
    (unix_path (win_path "/mnt/C/dir".toList)).map win_path = .ok "./mnt/C/dir".toList
    ∧ (unix_path (win_path "/mnt/C/dir".toList)).map win_path ≠ .ok "C:/dir".toList := by
  decide

/-- C6 (amended): for every lowercase drive letter `l` and every remainder of
at most 4091 characters, with `m = "/mnt/" ++ l ++ "/" ++ rest`,
`win_path(unix_path(win_path(m)))` is the native path `l ++ ":/" ++ rest`. -/
theorem C6_round_trip_lower (l : Char) (rest : Str) (hl : l.isLower = true)
    (hlen : rest.length ≤ 4091) :
    (unix_path (win_path ("/mnt/".toList ++ [l] ++ "/".toList ++ rest))).map win_path
      = .ok ([l] ++ ":/".toList ++ rest) := by
  have hw := (win_path_lower_fits l rest hl hlen)
  rw [hw]
  have hu := unix_path_drive l ("/".toList ++ rest) (Or.inr (Or.inl rfl))
  have hu' : unix_path ([l] ++ ":/".toList ++ rest)
      = .ok ("/mnt/".toList ++ [l] ++ "/".toList ++ rest) := by
    rw [(all_of_lower l hl).1] at hu
    simpa using hu
  rw [hu']
  simp only [Except.map]
  rw [hw]

/-- C6 (amended) at `/mnt/c/dir`. -/
theorem C6_round_trip_lower_witness :
    (unix_path (win_path "/mnt/c/dir".toList)).map win_path = .ok "c:/dir".toList :=
  C6_round_trip_lower 'c' "dir".toList (by decide) (by decide)

/-- C7, as stated, fails in both directions: `/mnt/d` comes back as `/mnt/d/`,
and the native paths `C:/dir`, `c:\dir` and `c:` come back as `c:/dir`,
`./mnt/c\dir` and `c:/`. -/
theorem C7_not_exact_inverse :
    unix_path (win_path "/mnt/d".toList) = .ok "/mnt/d/".toList
    ∧ (unix_path "C:/dir".toList).map win_path = .ok "c:/dir".toList
    ∧ (unix_path "c:\\dir".toList).map win_path = .ok "./mnt/c\\dir".toList
    ∧ (unix_path "c:".toList).map win_path = .ok "c:/".toList := by
  decide

/-- C7 (amended): for every lowercase letter `l` and every remainder of at most
4091 characters, `unix_path(win_path(m)) = m` for `m = "/mnt/" ++ l ++ "/" ++ rest`
and `win_path(unix_path(n)) = n` for `n = l ++ ":/" ++ rest`. -/
theorem C7_inverse_on_lower_slash (l : Char) (rest : Str) (hl : l.isLower = true)
    (hlen : rest.length ≤ 4091) :
    unix_path (win_path ("/mnt/".toList ++ [l] ++ "/".toList ++ rest))
      = .ok ("/mnt/".toList ++ [l] ++ "/".toList ++ rest)
    ∧ (unix_path ([l] ++ ":/".toList ++ rest)).map win_path
      = .ok ([l] ++ ":/".toList ++ rest) := by
  have hw := (win_path_lower_fits l rest hl hlen)
  have hu := unix_path_drive l ("/".toList ++ rest) (Or.inr (Or.inl rfl))
  have hu' : unix_path ([l] ++ ":/".toList ++ rest)
      = .ok ("/mnt/".toList ++ [l] ++ "/".toList ++ rest) := by
    rw [(all_of_lower l hl).1] at hu
    simpa using hu
  refine ⟨?_, ?_⟩
  · rw [hw, hu']
  · rw [hu']
    simp only [Except.map]
    rw [hw]

/-- C7 (amended) at `/mnt/d/dir` and `d:/dir`. -/
theorem C7_inverse_on_lower_slash_witness :
    unix_path (win_path "/mnt/d/dir".toList) = .ok "/mnt/d/dir".toList
    ∧ (unix_path "d:/dir".toList).map win_path = .ok "d:/dir".toList :=
  C7_inverse_on_lower_slash 'd' "dir".toList (by decide) (by decide)

end Gcc2msvc

/-! ## The scan and the command assembly -/

namespace Gcc2msvc

/-- A token that does not start with a dash is a quoted, translated operand. -/
theorem step_operand (st : State) (f : Str) (rest : List Str) (hf : charAt f 0 ≠ '-') :
    step st f rest = .ok (st.addCmd (" '".toList ++ win_path f ++ "'".toList), 0) := by
  simp [step, hf, pure, Except.pure]

/-- The token `-c` adds ` /c` and clears `do_link`. -/
theorem step_c (st : State) (rest : List Str) :
    step st "-c".toList rest
      = .ok ({ st.addCmd " /c".toList with do_link := false }, 0) := by
  rfl

/-- The token `-o` followed by a value. -/
theorem step_o_value (st : State) (o : Str) (rest : List Str) :
    step st "-o".toList (o :: rest)
      = .ok ({ st.addLnk (" /out:'".toList ++ o ++ "'".toList) with have_outname := true }, 1) := by
  rfl

/-- The token `-L` with the directory attached. -/
theorem step_L_attached (st : State) (d : Str) (rest : List Str) (hd : d ≠ []) :
    step st ("-L".toList ++ d) rest
      = .ok (st.addLnk (" /libpath:'".toList ++ win_path d ++ "'".toList), 0) := by
  rcases d with _ | ⟨a, tl⟩
  · exact absurd rfl hd
  · simp [step, stepShort, charAt, strlen, offset, bind, Except.bind, pure, Except.pure]

/-- The token `-l` with a library name outside the special names. -/
theorem step_l_plain (st : State) (n : Str) (rest : List Str) (hn : n ≠ [])
    (h1 : n ≠ "msvcrt".toList) (h2 : n ≠ "libcmt".toList) (h3 : n ≠ "c".toList)
    (h4 : n ≠ "m".toList) (h5 : n ≠ "rt".toList) (h6 : n ≠ "stdc++".toList)
    (h7 : n ≠ "gcc_s".toList) :
    step st ("-l".toList ++ n) rest
      = .ok (st.addLnk (" '".toList ++ n ++ ".lib'".toList), 0) := by
  rcases n with _ | ⟨a, tl⟩
  · exact absurd rfl hn
  · simp only [String.toList] at h1 h2 h3 h4 h5 h6 h7
    have h1' : ¬ (a = 'm' ∧ tl = ['s', 'v', 'c', 'r', 't']) := fun ⟨ha, ht⟩ => h1 (by rw [ha, ht])
    have h2' : ¬ (a = 'l' ∧ tl = ['i', 'b', 'c', 'm', 't']) := fun ⟨ha, ht⟩ => h2 (by rw [ha, ht])
    simp [step, stepShort, charAt, strlen, offset, bind, Except.bind, pure, Except.pure,
      h1', h2', h3, h4, h5, h6, h7]

theorem Yields.pure {R : State → Prop} {s : State} {k : Nat} (h : R s) :
    Yields R (Pure.pure (s, k)) := by
  intro st' k' e
  cases e
  exact h

theorem Yields.error {R : State → Prop} {e : Exit} : Yields R (.error e) := by
  intro st' k' h
  cases h

theorem Yields.ite {R : State → Prop} {c : Prop} [Decidable c]
    {a b : Except Exit (State × Nat)} (ha : Yields R a) (hb : Yields R b) :
    Yields R (if c then a else b) := by
  split
  · exact ha
  · exact hb

theorem Yields.bind {R : State → Prop} {α : Type} {x : Except Exit α}
    {f : α → Except Exit (State × Nat)} (h : ∀ v, Yields R (f v)) :
    Yields R (x >>= f) := by
  intro st' k e
  cases x with
  | error err => cases e
  | ok v => exact h v st' k e

theorem stepLong_do_link (st : State) (arg : Str) :
    Yields (fun s => st.do_link = false → s.do_link = false) (stepLong st arg) := by
  unfold stepLong
  repeat' first
    | apply Yields.ite
    | apply Yields.error
    | apply Yields.pure
    | (apply Yields.bind; intro _)
    | split
    | dsimp only
  all_goals exact id

theorem stepWl_do_link (st : State) (arg : Str) (rest : List Str) (k : Nat) (lopt : Str) :
    Yields (fun s => st.do_link = false → s.do_link = false) (stepWl st arg rest k lopt) := by
  unfold stepWl
  repeat' first
    | apply Yields.ite
    | apply Yields.error
    | apply Yields.pure
    | (apply Yields.bind; intro _)
    | split
    | dsimp only
  all_goals exact id

theorem stepW_do_link (st : State) (arg : Str) (rest : List Str) :
    Yields (fun s => st.do_link = false → s.do_link = false) (stepW st arg rest) := by
  unfold stepW
  repeat' first
    | exact stepWl_do_link _ _ _ _ _
    | apply Yields.ite
    | apply Yields.error
    | apply Yields.pure
    | (apply Yields.bind; intro _)
    | split
    | dsimp only
  all_goals exact id

theorem stepShort_do_link (st : State) (arg : Str) (rest : List Str) :
    Yields (fun s => st.do_link = false → s.do_link = false) (stepShort st arg rest) := by
  unfold stepShort stepM stepF stepN stepS
  repeat' first
    | exact stepW_do_link _ _ _
    | apply Yields.ite
    | apply Yields.error
    | apply Yields.pure
    | (apply Yields.bind; intro _)
    | split
    | dsimp only
  all_goals first | exact id | exact fun _ => rfl

theorem step_do_link (st : State) (arg : Str) (rest : List Str) :
    Yields (fun s => st.do_link = false → s.do_link = false) (step st arg rest) := by
  unfold step
  repeat' first
    | exact stepLong_do_link _ _
    | exact stepShort_do_link _ _ _
    | apply Yields.ite
    | apply Yields.pure
  exact id

/-- The scan never sets `do_link` again once it is cleared. -/
theorem scanFrom_do_link (args : List Str) :
    ∀ (k : Nat) (st st' : State), scanFrom k st args = .ok st' →
      st.do_link = false → st'.do_link = false := by
  induction args with
  | nil =>
    intro k st st' h hl
    cases k <;> simp [scanFrom] at h <;> subst h <;> exact hl
  | cons arg rest ih =>
    intro k st st' h hl
    cases k with
    | succ k => exact ih k st st' (by simpa [scanFrom] using h) hl
    | zero =>
      simp only [scanFrom] at h
      cases hs : step st arg rest with
      | error e => rw [hs] at h; cases h
      | ok r =>
        obtain ⟨st1, k1⟩ := r
        rw [hs] at h
        exact ih k1 st1 st' h (step_do_link st arg rest st1 k1 hs hl)

/-- A scan in which `-c` is met at a loop head ends with `do_link` cleared. -/
theorem scanFrom_c_clears (args : List Str) :
    ∀ (k : Nat) (st st' : State), scanFrom k st args = .ok st' →
      (scanTrace k st args).any (fun p => p.2 == "-c".toList) = true →
      st'.do_link = false := by
  induction args with
  | nil =>
    intro k st st' _ ht
    cases k <;> simp [scanTrace] at ht
  | cons arg rest ih =>
    intro k st st' h ht
    cases k with
    | succ k => exact ih k st st' (by simpa [scanFrom] using h) (by simpa [scanTrace] using ht)
    | zero =>
      simp only [scanFrom] at h
      simp only [scanTrace, List.any_cons, Bool.or_eq_true, beq_iff_eq] at ht
      cases hs : step st arg rest with
      | error e => rw [hs] at h; cases h
      | ok r =>
        obtain ⟨st1, k1⟩ := r
        rw [hs] at h ht
        rcases ht with ht | ht
        · subst ht
          rw [step_c] at hs
          cases hs
          exact scanFrom_do_link rest 0 _ st' h rfl
        · exact ih k1 st1 st' h ht

/-- The overlay only appends to the stream it is given. -/
theorem split_env_append (v : Option Str) (a s : Str) :
    split_env v a s = s ++ split_env v a [] := by
  cases v with
  | none => simp [split_env]
  | some e =>
    simp only [split_env]
    generalize strtok_all ';' e = toks
    induction toks generalizing s with
    | nil => simp
    | cons t ts ih =>
      simp only [List.foldl_cons]
      rw [ih, ih ([] ++ _)]
      simp

/-- The assembled command of a state that does not link. -/
theorem assemble_no_link (inc lib : Str) (env : Env) (st : State) (d : Str)
    (h : st.do_link = false) :
    assemble inc lib env st d
      = "'".toList ++ d ++ "'".toList
        ++ (if st.threadsafe_statics then " /Zc:threadSafeInit".toList else [])
        ++ (if st.rtti then " /GR".toList else [])
        ++ st.cmd ++ split_env env.INCLUDE "I".toList [] ++ split_env env.LIB "libpath".toList []
        ++ (if st.use_default_inc_paths then " ".toList ++ inc else []) := by
  have hov : ∀ a b s : Str, split_env env.LIB a (split_env env.INCLUDE b s)
      = s ++ (split_env env.INCLUDE b [] ++ split_env env.LIB a []) := by
    intro a b s
    rw [split_env_append env.LIB, split_env_append env.INCLUDE, List.append_assoc]
  unfold assemble
  cases st.threadsafe_statics <;> cases st.rtti <;> cases st.use_default_inc_paths <;>
    simp [h, hov]

end Gcc2msvc

/-! ## Claims on the command assembly -/

namespace Gcc2msvc

/-- C8: with the INCLUDE and LIB variables unset, a scan that ends in state `st`
without an information option, and a driver that resolves to `d`, the command
is `'d'`, then ` /Zc:threadSafeInit` and ` /GR` when enabled, the compile stream,
the default includes when enabled and, when linking, the single ` /link` marker,
the link stream, ` /out:'a.exe'` when no output name was given and the default
library paths when enabled. -/
theorem C8_final_command (cfg : Config) (env : Env) (args : List Str) (st : State) (d : Str)
    (hI : env.INCLUDE = none) (hL : env.LIB = none)
    (hscan : scan env args = .ok st) (hd : resolve_driver cfg st = .ok d)
    (hinfo : st.print_help_cl = false ∧ st.print_help_link = false ∧
      st.print_version = false ∧ st.print_search_dirs = false) :
    (main cfg env args).outcome
      = (if st.print_only then Outcome.printed st.verbose else Outcome.exec st.verbose)
          ("'".toList ++ d ++ "'".toList
            ++ (if st.threadsafe_statics then " /Zc:threadSafeInit".toList else [])
            ++ (if st.rtti then " /GR".toList else [])
            ++ st.cmd
            ++ (if st.use_default_inc_paths then " ".toList ++ cfg.DEFAULT_INCLUDES else [])
            ++ (if st.do_link then
                  " /link".toList ++ st.lnk
                    ++ (if st.have_outname then [] else " /out:'a.exe'".toList)
                    ++ (if st.default_lib_paths then " ".toList ++ lib_paths_default cfg st
                        else [])
                else [])) := by
  obtain ⟨h1, h2, h3, h4⟩ := hinfo
  simp only [main, hscan, finish, hd, h1, h2, h3, h4, assemble, hI, hL, split_env]
  cases st.threadsafe_statics <;> cases st.rtti <;> cases st.use_default_inc_paths <;>
    cases st.do_link <;> cases st.have_outname <;> cases st.default_lib_paths <;>
    cases st.print_only <;> simp

/-- C8 on `-fno-rtti -DX -o x.exe y.c` with the sample configuration. -/
theorem C8_final_command_witness :
    (main sampleConfig ⟨none, none, none⟩
        ["-fno-rtti".toList, "-DX".toList, "-o".toList, "x.exe".toList, "y.c".toList]).outcome
      = Outcome.exec false
          ("'/mnt/c/VC/bin/amd64/cl.exe' /Zc:threadSafeInit /D'X' 'y.c' /I'c:/VC/include'" ++
            " /link /out:'x.exe' /libpath:'c:/VC/lib/amd64'").toList :=
  C8_final_command sampleConfig ⟨none, none, none⟩
    ["-fno-rtti".toList, "-DX".toList, "-o".toList, "x.exe".toList, "y.c".toList]
    { State.init ⟨none, none, none⟩ with
      cmd := " /D'X' 'y.c'".toList, lnk := " /out:'x.exe'".toList,
      have_outname := true, rtti := false }
    "/mnt/c/VC/bin/amd64/cl.exe".toList rfl rfl (by decide) (by decide) (by decide)

/-- C9: for every operand `f` (a token that does not start with `-`), the
arguments `-c f` give the command `'d' /Zc:threadSafeInit /GR /c '<win_path f>'`,
followed by the environment overlay and the default includes, with no ` /link`
marker and no ` /out:'a.exe'`; and whenever `-c` is scanned as a flag, the scan
ends with linking disabled and the assembled command ends with the compile
part: nothing of the link stage is appended. -/
theorem C9_compile_only (cfg : Config) (env : Env) :
    (∀ (f d : Str), charAt f 0 ≠ '-' → unix_path cfg.DEFAULT_CL_CMD_X64 = .ok d →
      (main cfg env ["-c".toList, f]).outcome
        = Outcome.exec false
            ("'".toList ++ d ++ "'".toList ++ " /Zc:threadSafeInit".toList ++ " /GR".toList
              ++ " /c".toList ++ (" '".toList ++ win_path f ++ "'".toList)
              ++ split_env env.INCLUDE "I".toList [] ++ split_env env.LIB "libpath".toList []
              ++ (" ".toList ++ cfg.DEFAULT_INCLUDES)))
    ∧ (∀ (args : List Str) (st : State) (d : Str),
        scannedIn env "-c".toList args = true → scan env args = .ok st →
        st.do_link = false
        ∧ assemble cfg.DEFAULT_INCLUDES (lib_paths_default cfg st) env st d
          = "'".toList ++ d ++ "'".toList
            ++ (if st.threadsafe_statics then " /Zc:threadSafeInit".toList else [])
            ++ (if st.rtti then " /GR".toList else [])
            ++ st.cmd
            ++ split_env env.INCLUDE "I".toList [] ++ split_env env.LIB "libpath".toList []
            ++ (if st.use_default_inc_paths then " ".toList ++ cfg.DEFAULT_INCLUDES else [])) := by
  constructor
  · intro f d hf hd
    have hscan : scan env ["-c".toList, f]
        = .ok ({ (State.init env).addCmd " /c".toList with do_link := false }.addCmd
            (" '".toList ++ win_path f ++ "'".toList)) := by
      simp only [scan, scanFrom, step_c, step_operand _ f [] hf]
    have hr : resolve_driver cfg ({ (State.init env).addCmd " /c".toList with
        do_link := false }.addCmd (" '".toList ++ win_path f ++ "'".toList)) = .ok d := by
      simpa [resolve_driver, driver_default, State.addCmd, State.init] using hd
    simp only [main, hscan, finish, hr]
    rw [assemble_no_link _ _ _ _ _ rfl]
    simp [State.addCmd, State.init]
  · intro args st d ht hscan
    have hl : st.do_link = false := scanFrom_c_clears args 0 _ st hscan ht
    exact ⟨hl, assemble_no_link _ _ _ _ _ hl⟩

/-- C9 on `-c foo.c` with the sample configuration and an empty environment. -/
theorem C9_compile_only_witness :
    (main sampleConfig ⟨none, none, none⟩ ["-c".toList, "foo.c".toList]).outcome
      = Outcome.exec false
          "'/mnt/c/VC/bin/amd64/cl.exe' /Zc:threadSafeInit /GR /c 'foo.c' /I'c:/VC/include'".toList :=
  (C9_compile_only sampleConfig ⟨none, none, none⟩).1 "foo.c".toList
    "/mnt/c/VC/bin/amd64/cl.exe".toList (by decide) (by decide)

end Gcc2msvc

namespace Gcc2msvc

/-- C10, as stated, fails for an empty directory or library name. With `d`
empty the token is the bare `-L`, which takes the operand `bar.c` as its value:
the link stream gets ` /libpath:'bar.c'` and the compile stream loses the
operand. With `n` empty the token is the bare `-l`, which adds nothing. -/
theorem C10_empty_value_differs :
    (scan ⟨none, none, none⟩
        ["-o".toList, "out.exe".toList, "-lfoo".toList, "-L".toList, "bar.c".toList]).map
      (fun s => (s.cmd, s.lnk))
      = .ok ([], " /out:'out.exe' 'foo.lib' /libpath:'bar.c'".toList)
    ∧ (scan ⟨none, none, none⟩
        ["-o".toList, "out.exe".toList, "-l".toList, "-Lmydir".toList, "bar.c".toList]).map
      (fun s => (s.cmd, s.lnk))
      = .ok (" 'bar.c'".toList, " /out:'out.exe' /libpath:'mydir'".toList) := by
  decide

/-- C10 (amended): for every output name `o`, every non-empty library name `n`
outside the special names, every non-empty directory `d` and every operand `f`,
the arguments `-o o -l<n> -L<d> f` give a command with the ` /link` marker
followed by ` /out:'o'`, ` '<n>.lib'` and ` /libpath:'<win_path d>'` in this
order, then the default library paths; ` /out:'a.exe'` is not appended. -/
theorem C10_link_mode (cfg : Config) (env : Env) (o n d f dr : Str)
    (hn : n ≠ []) (hd : d ≠ [])
    (h1 : n ≠ "msvcrt".toList) (h2 : n ≠ "libcmt".toList) (h3 : n ≠ "c".toList)
    (h4 : n ≠ "m".toList) (h5 : n ≠ "rt".toList) (h6 : n ≠ "stdc++".toList)
    (h7 : n ≠ "gcc_s".toList)
    (hf : charAt f 0 ≠ '-') (hdr : unix_path cfg.DEFAULT_CL_CMD_X64 = .ok dr) :
    (main cfg env ["-o".toList, o, "-l".toList ++ n, "-L".toList ++ d, f]).outcome
      = Outcome.exec false
          ("'".toList ++ dr ++ "'".toList ++ " /Zc:threadSafeInit".toList ++ " /GR".toList
            ++ (" '".toList ++ win_path f ++ "'".toList)
            ++ split_env env.INCLUDE "I".toList [] ++ split_env env.LIB "libpath".toList []
            ++ (" ".toList ++ cfg.DEFAULT_INCLUDES)
            ++ " /link".toList
            ++ (" /out:'".toList ++ o ++ "'".toList)
            ++ (" '".toList ++ n ++ ".lib'".toList)
            ++ (" /libpath:'".toList ++ win_path d ++ "'".toList)
            ++ (" ".toList ++ cfg.DEFAULT_LIBPATHS_X64)) := by
  have hov : ∀ a b s : Str, split_env env.LIB a (split_env env.INCLUDE b s)
      = s ++ (split_env env.INCLUDE b [] ++ split_env env.LIB a []) := by
    intro a b s
    rw [split_env_append env.LIB, split_env_append env.INCLUDE, List.append_assoc]
  have hscan : scan env ["-o".toList, o, "-l".toList ++ n, "-L".toList ++ d, f]
      = .ok { State.init env with
          cmd := " '".toList ++ win_path f ++ "'".toList
          lnk := (" /out:'".toList ++ o ++ "'".toList) ++ (" '".toList ++ n ++ ".lib'".toList)
            ++ (" /libpath:'".toList ++ win_path d ++ "'".toList)
          have_outname := true } := by
    simp only [scan, scanFrom, step_o_value, step_l_plain _ n _ hn h1 h2 h3 h4 h5 h6 h7,
      step_L_attached _ d _ hd, step_operand _ f [] hf]
    simp [State.addCmd, State.addLnk, State.init]
  simp only [main, hscan, finish, resolve_driver, driver_default, State.init]
  simp [hdr, assemble, hov, lib_paths_default]

/-- C10 (amended) on `-o out.exe -lfoo -Lmydir bar.c`. -/
theorem C10_link_mode_witness :
    (main sampleConfig ⟨none, none, none⟩
        ["-o".toList, "out.exe".toList, "-lfoo".toList, "-Lmydir".toList, "bar.c".toList]).outcome
      = Outcome.exec false
          ("'/mnt/c/VC/bin/amd64/cl.exe' /Zc:threadSafeInit /GR 'bar.c' /I'c:/VC/include'" ++
            " /link /out:'out.exe' 'foo.lib' /libpath:'mydir' /libpath:'c:/VC/lib/amd64'").toList :=
  C10_link_mode sampleConfig ⟨none, none, none⟩ "out.exe".toList "foo".toList "mydir".toList
    "bar.c".toList "/mnt/c/VC/bin/amd64/cl.exe".toList (by decide) (by decide) (by decide)
    (by decide) (by decide) (by decide) (by decide) (by decide) (by decide) (by decide)
    (by decide)

end Gcc2msvc

/-! ## Single flags -/

namespace Gcc2msvc

/-- C11, as stated, fails: the value of `-o` is appended as it is, without the
path translation. For `/mnt/c/build/out.exe`, separate or attached, the link
stream gets ` /out:'/mnt/c/build/out.exe'`, not ` /out:'c:/build/out.exe'`. -/
theorem C11_output_name_untranslated :
    (scan ⟨none, none, none⟩ ["-o".toList, "/mnt/c/build/out.exe".toList]).map
        (fun s => (s.lnk, s.have_outname))
      = .ok (" /out:'/mnt/c/build/out.exe'".toList, true)
    ∧ (scan ⟨none, none, none⟩ ["-o/mnt/c/build/out.exe".toList]).map
        (fun s => (s.lnk, s.have_outname))
      = .ok (" /out:'/mnt/c/build/out.exe'".toList, true)
    ∧ win_path "/mnt/c/build/out.exe".toList = "c:/build/out.exe".toList := by
  decide

/-- C11 (amended): for every value `v`, `-o v` (separate) and `-o` ++ `v`
(attached, `v` non-empty) append ` /out:'` ++ `v` ++ `'` to the link stream, the
value untranslated, and set `have_outname`; nothing else changes. -/
theorem C11_output_name_verbatim (st : State) (v : Str) (rest : List Str) (hv : v ≠ []) :
    step st "-o".toList (v :: rest)
      = .ok ({ st with lnk := st.lnk ++ (" /out:'".toList ++ v ++ "'".toList),
                       have_outname := true }, 1)
    ∧ step st ("-o".toList ++ v) rest
      = .ok ({ st with lnk := st.lnk ++ (" /out:'".toList ++ v ++ "'".toList),
                       have_outname := true }, 0) := by
  refine ⟨rfl, ?_⟩
  rcases v with _ | ⟨a, tl⟩
  · exact absurd rfl hv
  · simp [step, stepShort, charAt, strlen, offset, bind, Except.bind, pure, Except.pure,
      State.addLnk]

/-- C11 (amended) at `build/out.exe`. -/
theorem C11_output_name_verbatim_witness :
    step (State.init ⟨none, none, none⟩) "-o".toList ["build/out.exe".toList]
      = .ok ({ State.init ⟨none, none, none⟩ with
          lnk := " /out:'build/out.exe'".toList, have_outname := true }, 1)
    ∧ step (State.init ⟨none, none, none⟩) "-obuild/out.exe".toList []
      = .ok ({ State.init ⟨none, none, none⟩ with
          lnk := " /out:'build/out.exe'".toList, have_outname := true }, 0) :=
  C11_output_name_verbatim (State.init ⟨none, none, none⟩) "build/out.exe".toList []
    (by decide)

/-- C12: for every non-empty value `v`, `-I v` and `-I` ++ `v` append exactly
` /I'` ++ `win_path v` ++ `'` to the compile stream, `-D v` and `-D` ++ `v` append
` /D'` ++ `v` ++ `'`, `-U v` and `-U` ++ `v` append ` /U'` ++ `v` ++ `'`, the
value untranslated; both spellings leave the same state, in which only the
compile stream has changed. -/
theorem C12_include_define_undefine (st : State) (v : Str) (rest : List Str) (hv : v ≠ []) :
    step st "-I".toList (v :: rest)
      = .ok ({ st with cmd := st.cmd ++ (" /I'".toList ++ win_path v ++ "'".toList) }, 1)
    ∧ step st ("-I".toList ++ v) rest
      = .ok ({ st with cmd := st.cmd ++ (" /I'".toList ++ win_path v ++ "'".toList) }, 0)
    ∧ step st "-D".toList (v :: rest)
      = .ok ({ st with cmd := st.cmd ++ (" /D'".toList ++ v ++ "'".toList) }, 1)
    ∧ step st ("-D".toList ++ v) rest
      = .ok ({ st with cmd := st.cmd ++ (" /D'".toList ++ v ++ "'".toList) }, 0)
    ∧ step st "-U".toList (v :: rest)
      = .ok ({ st with cmd := st.cmd ++ (" /U'".toList ++ v ++ "'".toList) }, 1)
    ∧ step st ("-U".toList ++ v) rest
      = .ok ({ st with cmd := st.cmd ++ (" /U'".toList ++ v ++ "'".toList) }, 0) := by
  rcases v with _ | ⟨a, tl⟩
  · exact absurd rfl hv
  · refine ⟨rfl, ?_, ?_, ?_, ?_, ?_⟩
    · simp [step, stepShort, charAt, strlen, offset, bind, Except.bind, pure, Except.pure,
        State.addCmd]
    · simp [step, stepShort, charAt, strlen, offset, bind, Except.bind, pure, Except.pure,
        State.addCmd, liftFault, substr, argvAt]
    · simp [step, stepShort, charAt, strlen, offset, bind, Except.bind, pure, Except.pure,
        State.addCmd, liftFault, substr]
    · simp [step, stepShort, charAt, strlen, offset, bind, Except.bind, pure, Except.pure,
        State.addCmd, liftFault, substr, argvAt]
    · simp [step, stepShort, charAt, strlen, offset, bind, Except.bind, pure, Except.pure,
        State.addCmd, liftFault, substr]

/-- C12 at the value `/mnt/c/inc`: translated behind `-I`, verbatim behind `-D` and `-U`. -/
theorem C12_include_define_undefine_witness :
    step (State.init ⟨none, none, none⟩) "-I".toList ["/mnt/c/inc".toList]
      = .ok ({ State.init ⟨none, none, none⟩ with cmd := " /I'c:/inc'".toList }, 1)
    ∧ step (State.init ⟨none, none, none⟩) "-I/mnt/c/inc".toList []
      = .ok ({ State.init ⟨none, none, none⟩ with cmd := " /I'c:/inc'".toList }, 0)
    ∧ step (State.init ⟨none, none, none⟩) "-D".toList ["/mnt/c/inc".toList]
      = .ok ({ State.init ⟨none, none, none⟩ with cmd := " /D'/mnt/c/inc'".toList }, 1)
    ∧ step (State.init ⟨none, none, none⟩) "-D/mnt/c/inc".toList []
      = .ok ({ State.init ⟨none, none, none⟩ with cmd := " /D'/mnt/c/inc'".toList }, 0)
    ∧ step (State.init ⟨none, none, none⟩) "-U".toList ["/mnt/c/inc".toList]
      = .ok ({ State.init ⟨none, none, none⟩ with cmd := " /U'/mnt/c/inc'".toList }, 1)
    ∧ step (State.init ⟨none, none, none⟩) "-U/mnt/c/inc".toList []
      = .ok ({ State.init ⟨none, none, none⟩ with cmd := " /U'/mnt/c/inc'".toList }, 0) :=
  C12_include_define_undefine (State.init ⟨none, none, none⟩) "/mnt/c/inc".toList []
    (by decide)

end Gcc2msvc

namespace Gcc2msvc

/-- C13: for every non-empty name `n`, `-l` ++ `n` appends exactly
` '` ++ `n` ++ `.lib'` to the link stream when `n` is none of the special names;
leaves the state as it is when `n` is one of `c`, `m`, `rt`, `stdc++`, `gcc_s`;
and appends ` /MD` (`msvcrt`) or ` /MT` (`libcmt`) to the compile stream only.
The arguments `-lm -lstdc++ -lcustom` give the link stream ` 'custom.lib'` and an
empty compile stream. -/
theorem C13_library_names (st : State) (rest : List Str) (env : Env) :
    (∀ n : Str, n ≠ [] → n ≠ "msvcrt".toList → n ≠ "libcmt".toList → n ≠ "c".toList →
        n ≠ "m".toList → n ≠ "rt".toList → n ≠ "stdc++".toList → n ≠ "gcc_s".toList →
        step st ("-l".toList ++ n) rest
          = .ok ({ st with lnk := st.lnk ++ (" '".toList ++ n ++ ".lib'".toList) }, 0))
    ∧ (∀ n : Str, n ∈ ["c".toList, "m".toList, "rt".toList, "stdc++".toList, "gcc_s".toList] →
        step st ("-l".toList ++ n) rest = .ok (st, 0))
    ∧ step st "-lmsvcrt".toList rest = .ok ({ st with cmd := st.cmd ++ " /MD".toList }, 0)
    ∧ step st "-llibcmt".toList rest = .ok ({ st with cmd := st.cmd ++ " /MT".toList }, 0)
    ∧ (scan env ["-lm".toList, "-lstdc++".toList, "-lcustom".toList]).map
        (fun s => (s.cmd, s.lnk)) = .ok ([], " 'custom.lib'".toList) := by
  refine ⟨?_, ?_, rfl, rfl, rfl⟩
  · intro n hn h1 h2 h3 h4 h5 h6 h7
    exact step_l_plain st n rest hn h1 h2 h3 h4 h5 h6 h7
  · intro n hn
    simp only [List.mem_cons, List.mem_nil_iff, or_false] at hn
    rcases hn with h | h | h | h | h <;> subst h <;> rfl

/-- C14: `-O1` and `-O2` both append ` /O2 /Ot` to the compile stream, `-O3`
appends ` /Ox`, `-Os` appends ` /O1 /Os`, `-O0` appends ` /Od`; these outputs differ
from one another; every other three-character token `-O?` leaves the state as
it is; in each case only the compile stream changes. -/
theorem C14_optimization_levels (st : State) (rest : List Str) :
    step st "-O1".toList rest = .ok ({ st with cmd := st.cmd ++ " /O2 /Ot".toList }, 0)
    ∧ step st "-O2".toList rest = .ok ({ st with cmd := st.cmd ++ " /O2 /Ot".toList }, 0)
    ∧ step st "-O3".toList rest = .ok ({ st with cmd := st.cmd ++ " /Ox".toList }, 0)
    ∧ step st "-Os".toList rest = .ok ({ st with cmd := st.cmd ++ " /O1 /Os".toList }, 0)
    ∧ step st "-O0".toList rest = .ok ({ st with cmd := st.cmd ++ " /Od".toList }, 0)
    ∧ " /O2 /Ot".toList ≠ " /Ox".toList ∧ " /O1 /Os".toList ≠ " /O2 /Ot".toList
    ∧ " /O1 /Os".toList ≠ " /Ox".toList
    ∧ (∀ c : Char, c ≠ '1' → c ≠ '2' → c ≠ '3' → c ≠ 's' → c ≠ '0' →
        step st ['-', 'O', c] rest = .ok (st, 0)) := by
  refine ⟨rfl, rfl, rfl, rfl, rfl, by decide, by decide, by decide, ?_⟩
  intro c h1 h2 h3 h4 h5
  simp [step, stepShort, charAt, strlen, pure, Except.pure, h1, h2, h3, h4, h5]

/-- A token that starts with `-Z` matches no rule: the state stays as it is and
no value token is consumed. -/
theorem step_Z (st : State) (tl : Str) (rest : List Str) :
    step st ("-Z".toList ++ tl) rest = .ok (st, 0) := by
  simp [step, stepShort, charAt, strlen, pure, Except.pure]

/-- C16: for every token `t` that starts with `-Z` and every argument list, the
scan of `t :: args` gives the same result as the scan of `args` (streams, mode
flags, driver, early return or fault alike), and so does the whole run; the
token consumes no following token. -/
theorem C16_unrecognized_flag_ignored (cfg : Config) (env : Env) (tl : Str)
    (args : List Str) (st : State) :
    step st ("-Z".toList ++ tl) args = .ok (st, 0)
    ∧ scan env (("-Z".toList ++ tl) :: args) = scan env args
    ∧ main cfg env (("-Z".toList ++ tl) :: args) = main cfg env args := by
  have hs : scan env (("-Z".toList ++ tl) :: args) = scan env args := by
    simp only [scan, scanFrom, step_Z]
  refine ⟨step_Z st tl args, hs, ?_⟩
  simp only [main, hs]

end Gcc2msvc

/-! ## The RTTI flag -/

namespace Gcc2msvc

theorem Yields.dite {R : State → Prop} {c : Prop} [Decidable c]
    {a b : Except Exit (State × Nat)} (ha : c → Yields R a) (hb : ¬c → Yields R b) :
    Yields R (if c then a else b) := by
  split
  · exact ha ‹_›
  · exact hb ‹_›

/-- The token `-fno-rtti` clears `rtti` and changes nothing else. -/
theorem step_fno_rtti (st : State) (rest : List Str) :
    step st "-fno-rtti".toList rest = .ok ({ st with rtti := false }, 0) := by
  rfl

theorem stepLong_rtti (st : State) (arg : Str) :
    Yields (fun s => s.rtti = st.rtti) (stepLong st arg) := by
  unfold stepLong
  repeat' first
    | apply Yields.ite
    | apply Yields.error
    | apply Yields.pure
    | (apply Yields.bind; intro _)
    | split
    | dsimp only

theorem stepWl_rtti (st : State) (arg : Str) (rest : List Str) (k : Nat) (lopt : Str) :
    Yields (fun s => s.rtti = st.rtti) (stepWl st arg rest k lopt) := by
  unfold stepWl
  repeat' first
    | apply Yields.ite
    | apply Yields.error
    | apply Yields.pure
    | (apply Yields.bind; intro _)
    | split
    | dsimp only
  all_goals rfl

theorem stepW_rtti (st : State) (arg : Str) (rest : List Str) :
    Yields (fun s => s.rtti = st.rtti) (stepW st arg rest) := by
  unfold stepW
  repeat' first
    | exact stepWl_rtti _ _ _ _ _
    | apply Yields.ite
    | apply Yields.error
    | apply Yields.pure
    | (apply Yields.bind; intro _)
    | split
    | dsimp only
  all_goals rfl

theorem stepF_rtti (st : State) (arg : Str) (harg : arg ≠ "-fno-rtti".toList) :
    Yields (fun s => s.rtti = st.rtti) (stepF st arg) := by
  unfold stepF
  repeat' first
    | (apply Yields.dite <;> intro _)
    | apply Yields.error
    | apply Yields.pure
    | (apply Yields.bind; intro _)
    | split
    | dsimp only
  all_goals first
    | rfl
    | (exfalso; apply harg; apply eq_of_beq; assumption)

theorem stepShort_rtti (st : State) (arg : Str) (rest : List Str)
    (harg : arg ≠ "-fno-rtti".toList) :
    Yields (fun s => s.rtti = st.rtti) (stepShort st arg rest) := by
  unfold stepShort stepM stepN stepS
  repeat' first
    | exact stepW_rtti _ _ _
    | exact stepF_rtti _ _ harg
    | apply Yields.ite
    | apply Yields.error
    | apply Yields.pure
    | (apply Yields.bind; intro _)
    | split
    | dsimp only
  all_goals rfl

/-- Only the token `-fno-rtti` changes `rtti`. -/
theorem step_rtti (st : State) (arg : Str) (rest : List Str)
    (harg : arg ≠ "-fno-rtti".toList) :
    Yields (fun s => s.rtti = st.rtti) (step st arg rest) := by
  unfold step
  repeat' first
    | exact stepLong_rtti _ _
    | exact stepShort_rtti _ _ _ harg
    | apply Yields.ite
    | apply Yields.pure
  rfl

end Gcc2msvc

namespace Gcc2msvc

/-- The scan ends with `rtti` set exactly when it started set and no
`-fno-rtti` was met at a loop head. -/
theorem scanFrom_rtti (args : List Str) :
    ∀ (k : Nat) (st st' : State), scanFrom k st args = .ok st' →
      st'.rtti = (st.rtti && !(scanTrace k st args).any (fun p => p.2 == "-fno-rtti".toList)) := by
  induction args with
  | nil =>
    intro k st st' h
    cases k <;> simp [scanFrom] at h <;> subst h <;> simp [scanTrace]
  | cons arg rest ih =>
    intro k st st' h
    cases k with
    | succ k =>
      simp only [scanFrom] at h
      simpa [scanTrace] using ih k st st' h
    | zero =>
      simp only [scanFrom] at h
      cases hs : step st arg rest with
      | error e => rw [hs] at h; cases h
      | ok r =>
        obtain ⟨st1, k1⟩ := r
        rw [hs] at h
        have hi := ih k1 st1 st' h
        simp only [scanTrace, hs, List.any_cons]
        by_cases harg : arg = "-fno-rtti".toList
        · subst harg
          rw [step_fno_rtti] at hs
          cases hs
          simp [hi]
        · have h1 : st1.rtti = st.rtti := step_rtti st arg rest harg st1 k1 hs
          have hb : (arg == "-fno-rtti".toList) = false := by simpa using harg
          rw [hi, h1, hb]
          simp

/-- The final command in closed form, for every state the scan can leave. -/
theorem assemble_formula (inc lib : Str) (env : Env) (st : State) (d : Str) :
    assemble inc lib env st d
      = "'".toList ++ d ++ "'".toList
        ++ (if st.threadsafe_statics then " /Zc:threadSafeInit".toList else [])
        ++ (if st.rtti then " /GR".toList else [])
        ++ st.cmd ++ split_env env.INCLUDE "I".toList [] ++ split_env env.LIB "libpath".toList []
        ++ (if st.use_default_inc_paths then " ".toList ++ inc else [])
        ++ (if st.do_link then
              " /link".toList ++ st.lnk
                ++ (if st.have_outname then [] else " /out:'a.exe'".toList)
                ++ (if st.default_lib_paths then " ".toList ++ lib else [])
            else []) := by
  have hov : ∀ a b s : Str, split_env env.LIB a (split_env env.INCLUDE b s)
      = s ++ (split_env env.INCLUDE b [] ++ split_env env.LIB a []) := by
    intro a b s
    rw [split_env_append env.LIB, split_env_append env.INCLUDE, List.append_assoc]
  unfold assemble
  cases st.threadsafe_statics <;> cases st.rtti <;> cases st.use_default_inc_paths <;>
    cases st.do_link <;> cases st.have_outname <;> cases st.default_lib_paths <;>
    simp [hov]

/-- C15: after any scan that runs to the end, `rtti` is set unless a
`-fno-rtti` token was scanned as a flag; the assembled command has ` /GR`
immediately ahead of the scanned compile stream exactly in that case; and the
token `-fno-rtti` changes nothing but `rtti`, so the thread-safe-statics flag
and the rest of the command are the same with and without it. -/
theorem C15_rtti_flag (cfg : Config) (env : Env) (args : List Str) (st : State) (d : Str)
    (hscan : scan env args = .ok st) :
    st.rtti = !(scannedIn env "-fno-rtti".toList args)
    ∧ assemble cfg.DEFAULT_INCLUDES (lib_paths_default cfg st) env st d
      = "'".toList ++ d ++ "'".toList
        ++ (if st.threadsafe_statics then " /Zc:threadSafeInit".toList else [])
        ++ (if scannedIn env "-fno-rtti".toList args then [] else " /GR".toList)
        ++ st.cmd ++ split_env env.INCLUDE "I".toList [] ++ split_env env.LIB "libpath".toList []
        ++ (if st.use_default_inc_paths then " ".toList ++ cfg.DEFAULT_INCLUDES else [])
        ++ (if st.do_link then
              " /link".toList ++ st.lnk
                ++ (if st.have_outname then [] else " /out:'a.exe'".toList)
                ++ (if st.default_lib_paths then " ".toList ++ lib_paths_default cfg st else [])
            else [])
    ∧ (∀ (s : State) (rest : List Str),
        step s "-fno-rtti".toList rest = .ok ({ s with rtti := false }, 0)) := by
  have hr : st.rtti = !(scannedIn env "-fno-rtti".toList args) := by
    have := scanFrom_rtti args 0 (State.init env) st hscan
    simpa [scannedIn, State.init] using this
  refine ⟨hr, ?_, fun s rest => step_fno_rtti s rest⟩
  rw [assemble_formula, hr]
  cases scannedIn env "-fno-rtti".toList args <;> simp

/-- C15 on `-fno-rtti x.c`: `rtti` is cleared and the command has no ` /GR`. -/
theorem C15_rtti_flag_witness :
    scannedIn ⟨none, none, none⟩ "-fno-rtti".toList ["-fno-rtti".toList, "x.c".toList] = true
    ∧ assemble sampleConfig.DEFAULT_INCLUDES sampleConfig.DEFAULT_LIBPATHS_X64
        ⟨none, none, none⟩
        { State.init ⟨none, none, none⟩ with cmd := " 'x.c'".toList, rtti := false }
        "cl".toList
      = ("'cl' /Zc:threadSafeInit 'x.c' /I'c:/VC/include'" ++
          " /link /out:'a.exe' /libpath:'c:/VC/lib/amd64'").toList :=
  ⟨by decide, (C15_rtti_flag sampleConfig ⟨none, none, none⟩
    ["-fno-rtti".toList, "x.c".toList]
    { State.init ⟨none, none, none⟩ with cmd := " 'x.c'".toList, rtti := false }
    "cl".toList (by decide)).2.1⟩

end Gcc2msvc

/-! ## Tokens and their values: what an iteration reads behind its token -/

namespace Gcc2msvc

theorem argvAt_one (arg : Str) (rest : List Str) : argvAt arg rest 1 = rest.head? := by
  cases rest <;> rfl

theorem argvAt_zero (arg : Str) (rest : List Str) : argvAt arg rest 0 = some arg := rfl

theorem noLook_refl (r : Except Exit (State × Nat)) : NoLook r r := fun _ h => h

theorem noLook_error {e : Exit} {r : Except Exit (State × Nat)} : NoLook (.error e) r := by
  intro s h
  cases h

theorem noLook_pos {s : State} {k : Nat} {r : Except Exit (State × Nat)} :
    NoLook (Pure.pure (s, k + 1)) r := by
  intro s' h
  cases h

theorem noLook_ite {c : Prop} [Decidable c] {a b a' b' : Except Exit (State × Nat)}
    (ha : NoLook a a') (hb : NoLook b b') :
    NoLook (if c then a else b) (if c then a' else b') := by
  split
  · exact ha
  · exact hb

theorem noLook_bind {α : Type} {x : Except Exit α} {f f' : α → Except Exit (State × Nat)}
    (h : ∀ v, NoLook (f v) (f' v)) : NoLook (x >>= f) (x >>= f') := by
  cases x with
  | error err => exact noLook_error
  | ok v => exact h v

/-- An iteration on a `-W...` token reads at most the token behind it. -/
theorem stepW_head (st : State) (arg : Str) (rest rest' : List Str)
    (h : rest.head? = rest'.head?) : stepW st arg rest = stepW st arg rest' := by
  by_cases h3 : strlen arg = 3
  · have f1 : (arg == "-Wl,--out-implib".toList) = false := by
      apply beq_false_of_ne
      intro e
      rw [e] at h3
      simp [strlen] at h3
    have f2 : (arg == "-Wl,-output-def".toList) = false := by
      apply beq_false_of_ne
      intro e
      rw [e] at h3
      simp [strlen] at h3
    have f3 : (arg == "-Wlink".toList) = false := by
      apply beq_false_of_ne
      intro e
      rw [e] at h3
      simp [strlen] at h3
    simp only [stepW, linker_opt, stepWl, h3, f1, f2, f3, argvAt_one, argvAt_zero, h,
      beq_self_eq_true, if_true, Bool.false_eq_true, if_false]
  · simp only [stepW, linker_opt, stepWl, h3, argvAt_one, argvAt_zero, h, Nat.zero_add,
      beq_iff_eq, if_false]

/-- An iteration reads at most the token behind its own. -/
theorem step_head (st : State) (arg : Str) (rest rest' : List Str)
    (h : rest.head? = rest'.head?) : step st arg rest = step st arg rest' := by
  simp only [step, stepShort, argvAt_one, h, stepW_head st arg rest rest' h]

/-- A `-W...` token that consumes no value on its own runs the same with tokens behind it. -/
theorem stepW_nolook (st : State) (arg : Str) (v : Str) (tl : List Str) :
    NoLook (stepW st arg []) (stepW st arg (v :: tl)) := by
  by_cases h3 : strlen arg = 3
  · rcases arg with _ | ⟨a, _ | ⟨b, _ | ⟨c, _ | ⟨d, tl'⟩⟩⟩⟩ <;> simp [strlen] at h3
    by_cases hl : c = 'l'
    · have hE : stepW st [a, b, c] [] = .error (.fault .nullDeref) := by
        simp [stepW, linker_opt, stepWl, hl, argvAt, beginsAt, begins, charAt,
          strncmp_eq, strlen, bind, Except.bind, pure, Except.pure]
      rw [hE]
      exact noLook_error
    · have hE : stepW st [a, b, c] [] = stepW st [a, b, c] (v :: tl) := by
        simp [stepW, hl, argvAt_zero, charAt]
      rw [hE]
      exact noLook_refl _
  · simp only [stepW, linker_opt, stepWl, h3, argvAt_one, argvAt_zero, Nat.zero_add,
      beq_iff_eq, if_false, List.head?]
    repeat' first
      | exact noLook_pos
      | exact noLook_error
      | apply noLook_ite
      | (apply noLook_bind; intro _)
      | with_reducible exact noLook_refl _

theorem stepShort_nolook (st : State) (arg : Str) (v : Str) (tl : List Str) :
    NoLook (stepShort st arg []) (stepShort st arg (v :: tl)) := by
  simp only [stepShort, argvAt_one, List.head?]
  repeat' first
    | exact stepW_nolook _ _ _ _
    | exact noLook_pos
    | exact noLook_error
    | apply noLook_ite
    | (apply noLook_bind; intro _)
    | with_reducible exact noLook_refl _

/-- An iteration that consumes no value with nothing behind its token gives the
same result with tokens behind it. -/
theorem step_nolook (st : State) (arg : Str) (v : Str) (tl : List Str) :
    NoLook (step st arg []) (step st arg (v :: tl)) := by
  simp only [step]
  repeat' first
    | exact stepShort_nolook _ _ _ _
    | apply noLook_ite
    | with_reducible exact noLook_refl _

end Gcc2msvc

namespace Gcc2msvc

/-- With the tokens it asked for in place, an iteration runs the same with more
tokens behind them. -/
theorem step_append (st s : State) (arg : Str) (rest ys : List Str) (k : Nat)
    (h : step st arg rest = .ok (s, k)) (hk : k ≤ rest.length) :
    step st arg (rest ++ ys) = .ok (s, k) := by
  cases rest with
  | nil =>
    have hk0 : k = 0 := by simpa using hk
    subst hk0
    cases ys with
    | nil => simpa using h
    | cons v tl => exact step_nolook st arg v tl s h
  | cons v tl =>
    rw [← h]
    exact step_head st arg _ _ rfl

/-- A scan that ends exactly has found every value token it skipped. -/
theorem scanEnd_length (xs : List Str) :
    ∀ (k : Nat) (st st' : State), scanEnd k st xs = .ok (st', 0) → k ≤ xs.length := by
  induction xs with
  | nil =>
    intro k st st' h
    simp only [scanEnd] at h
    cases h
    exact Nat.le_refl _
  | cons arg rest ih =>
    intro k st st' h
    cases k with
    | zero => exact Nat.zero_le _
    | succ k =>
      simp only [scanEnd] at h
      have := ih k st st' h
      simp only [List.length_cons]
      omega

/-- The scan proper is the scan with its cursor, the cursor forgotten. -/
theorem scanFrom_eq_scanEnd (xs : List Str) :
    ∀ (k : Nat) (st : State), scanFrom k st xs = (scanEnd k st xs).map Prod.fst := by
  induction xs with
  | nil =>
    intro k st
    cases k <;> rfl
  | cons arg rest ih =>
    intro k st
    cases k with
    | succ k => simpa [scanFrom, scanEnd] using ih k st
    | zero =>
      simp only [scanFrom, scanEnd]
      cases hs : step st arg rest with
      | error e => rfl
      | ok r =>
        obtain ⟨st1, k1⟩ := r
        exact ih k1 st1

/-- Behind a list whose scan ends exactly in state `st'`, the scan goes on from
`st'` at the next token. -/
theorem scanFrom_append (xs ys : List Str) :
    ∀ (k : Nat) (st st' : State), scanEnd k st xs = .ok (st', 0) →
      scanFrom k st (xs ++ ys) = scanFrom 0 st' ys := by
  induction xs with
  | nil =>
    intro k st st' h
    simp only [scanEnd] at h
    cases h
    rfl
  | cons arg rest ih =>
    intro k st st' h
    cases k with
    | succ k =>
      simp only [scanEnd] at h
      simpa [scanFrom] using ih k st st' h
    | zero =>
      simp only [scanEnd] at h
      cases hs : step st arg rest with
      | error e => rw [hs] at h; cases h
      | ok r =>
        obtain ⟨st1, k1⟩ := r
        rw [hs] at h
        have hk := scanEnd_length rest k1 st1 st' h
        have hs' := step_append st st1 arg rest ys k1 hs hk
        rw [List.cons_append]
        simp only [scanFrom, hs']
        exact ih k1 st1 st' h

/-- What `endsExactly` says, as an equation. -/
theorem endsExactly_iff (env : Env) (xs : List Str) :
    endsExactly env xs = true ↔ ∃ st, scanEnd 0 (State.init env) xs = .ok (st, 0) := by
  unfold endsExactly
  constructor
  · intro h
    split at h
    · next st heq => exact ⟨st, heq⟩
    · cases h
  · rintro ⟨st, h⟩
    rw [h]

/-- C17: for every argument list `xs` whose scan ends exactly at its last token
and every `f` among `-I`, `-D`, `-U`, `-L`, `-x`, `-include`, `-Wcl`, `-Wlink`, the
scan of `xs ++ [f]` leaves the state the scan of `xs` leaves, and the whole run
(command, warning and outcome) is the same. -/
theorem C17_trailing_value_flag (cfg : Config) (env : Env) (xs : List Str) (f : Str)
    (hx : endsExactly env xs = true)
    (hf : f ∈ ["-I".toList, "-D".toList, "-U".toList, "-L".toList, "-x".toList,
      "-include".toList, "-Wcl".toList, "-Wlink".toList]) :
    scan env (xs ++ [f]) = scan env xs ∧ main cfg env (xs ++ [f]) = main cfg env xs := by
  obtain ⟨st, hst⟩ := (endsExactly_iff env xs).1 hx
  have hstep : step st f [] = .ok (st, 1) := by
    simp only [List.mem_cons, List.mem_nil_iff, or_false] at hf
    rcases hf with h | h | h | h | h | h | h | h <;> subst h <;> rfl
  have h1 : scan env (xs ++ [f]) = .ok st := by
    unfold scan
    rw [scanFrom_append xs [f] 0 _ st hst]
    simp only [scanFrom, hstep]
  have h2 : scan env xs = .ok st := by
    unfold scan
    rw [scanFrom_eq_scanEnd, hst]
    rfl
  refine ⟨by rw [h1, h2], ?_⟩
  simp only [main, h1, h2]

/-- C17 on `foo.c` followed by a bare `-I`. -/
theorem C17_trailing_value_flag_witness :
    scan ⟨none, none, none⟩ ["foo.c".toList, "-I".toList]
      = scan ⟨none, none, none⟩ ["foo.c".toList]
    ∧ main sampleConfig ⟨none, none, none⟩ ["foo.c".toList, "-I".toList]
      = main sampleConfig ⟨none, none, none⟩ ["foo.c".toList] :=
  C17_trailing_value_flag sampleConfig ⟨none, none, none⟩ ["foo.c".toList] "-I".toList
    (by decide) (by decide)

end Gcc2msvc

/-! ## Value flags and linker options at the end of the arguments -/

namespace Gcc2msvc

/-- C13 at `-lcustom`. -/
theorem C13_library_names_witness :
    step (State.init ⟨none, none, none⟩) "-lcustom".toList []
      = .ok ({ State.init ⟨none, none, none⟩ with lnk := " 'custom.lib'".toList }, 0) :=
  (C13_library_names (State.init ⟨none, none, none⟩) [] ⟨none, none, none⟩).1
    "custom".toList (by decide) (by decide) (by decide) (by decide) (by decide) (by decide)
    (by decide) (by decide)

/-- C14 at `-Ox`, a three-character token with no rule. -/
theorem C14_optimization_levels_witness :
    step (State.init ⟨none, none, none⟩) "-Ox".toList []
      = .ok (State.init ⟨none, none, none⟩, 0) :=
  (C14_optimization_levels (State.init ⟨none, none, none⟩) []).2.2.2.2.2.2.2.2 'x'
    (by decide) (by decide) (by decide) (by decide) (by decide)

/-- C18 on the code: a final `-o` without a value still sets `have_outname`
(main.cpp line 297 lies behind the `if (i < argc)` guard, not inside it). The
scan of `foo.c` ends exactly at its last token and its command has
` /out:'a.exe'`; the command for `foo.c -o` has no output name at all. -/
theorem C18_trailing_o_drops_default_name :
    endsExactly ⟨none, none, none⟩ ["foo.c".toList] = true
    ∧ (main sampleConfig ⟨none, none, none⟩ ["foo.c".toList]).outcome
      = Outcome.exec false
          ("'/mnt/c/VC/bin/amd64/cl.exe' /Zc:threadSafeInit /GR 'foo.c' /I'c:/VC/include'" ++
            " /link /out:'a.exe' /libpath:'c:/VC/lib/amd64'").toList
    ∧ (main sampleConfig ⟨none, none, none⟩ ["foo.c".toList, "-o".toList]).outcome
      = Outcome.exec false
          ("'/mnt/c/VC/bin/amd64/cl.exe' /Zc:threadSafeInit /GR 'foo.c' /I'c:/VC/include'" ++
            " /link /libpath:'c:/VC/lib/amd64'").toList
    ∧ step (State.init ⟨none, none, none⟩) "-o".toList []
      = .ok ({ State.init ⟨none, none, none⟩ with have_outname := true }, 1) := by
  decide

/-- C19 on the code: with `-Wl` as the final token the iteration increments `i`
to `argc` and then calls `begins(argv[i], "-Wlink,")` (main.cpp line 416) on the
NULL that ends `argv`; and behind a bare `-Wl` the offset `arg+7` (line 418) is
taken on the three-character token. -/
theorem C19_trailing_Wl_reads_null :
    scan ⟨none, none, none⟩ ["-Wl".toList] = .error (.fault .nullDeref)
    ∧ (main sampleConfig ⟨none, none, none⟩ ["foo.c".toList, "-Wl".toList]).outcome
      = Outcome.fault .nullDeref
    ∧ scan ⟨none, none, none⟩ ["-Wl".toList, "-Wlink,/debug".toList]
      = .error (.fault .outOfBounds) := by
  decide

end Gcc2msvc

/-! ## Driver, environment, information options and the invoker -/

namespace Gcc2msvc

/-- C21 on the code: with no `--cl=` option and `CL_CMD` set to `D:/tools/cl.exe`,
the command starts with the built-in default driver, not with the value of
`CL_CMD`: `driver` is read from the variable (main.cpp lines 218-222) and then
overwritten by `driver_default` (lines 541-544). -/
theorem C21_CL_CMD_is_overwritten :
    (main sampleConfig ⟨some "D:/tools/cl.exe".toList, none, none⟩ ["foo.c".toList]).outcome
      = Outcome.exec false
          ("'/mnt/c/VC/bin/amd64/cl.exe' /Zc:threadSafeInit /GR 'foo.c' /I'c:/VC/include'" ++
            " /link /out:'a.exe' /libpath:'c:/VC/lib/amd64'").toList
    ∧ unix_path "D:/tools/cl.exe".toList = .ok "/mnt/d/tools/cl.exe".toList
    ∧ (main sampleConfig ⟨some "D:/tools/cl.exe".toList, none, none⟩
        ["--cl=E:/cl.exe".toList, "foo.c".toList]).outcome
      = Outcome.exec false
          ("'/mnt/e/cl.exe' /Zc:threadSafeInit /GR 'foo.c' /I'c:/VC/include'" ++
            " /link /out:'a.exe' /libpath:'c:/VC/lib/amd64'").toList := by
  decide

/-- C23 on the code: with the custom driver `D:/cl.exe`, adding `-m32` keeps
the driver and writes the warning, but replaces the default library paths of
the command by the 32-bit set: `lib_paths_default` is reassigned outside the
test of `use_default_driver` (main.cpp lines 532-540). -/
theorem C23_m32_switches_library_paths :
    main sampleConfig ⟨none, none, none⟩ ["--cl=D:/cl.exe".toList, "foo.c".toList]
      = ⟨false, Outcome.exec false
          ("'/mnt/d/cl.exe' /Zc:threadSafeInit /GR 'foo.c' /I'c:/VC/include'" ++
            " /link /out:'a.exe' /libpath:'c:/VC/lib/amd64'").toList⟩
    ∧ main sampleConfig ⟨none, none, none⟩
        ["--cl=D:/cl.exe".toList, "-m32".toList, "foo.c".toList]
      = ⟨true, Outcome.exec false
          ("'/mnt/d/cl.exe' /Zc:threadSafeInit /GR 'foo.c' /I'c:/VC/include'" ++
            " /link /out:'a.exe' /libpath:'c:/VC/lib'").toList⟩ := by
  decide

/-- C24 on the code: the entries of `INCLUDE` become ` /I'...'` flags of the
compile stream, but the entries of `LIB` are appended to the compile stream
too, as ` /libpath'...'` without the colon (main.cpp line 588 passes `cmd`, line
166 writes no colon), while `-L` writes ` /libpath:'...'` into the link stream. -/
theorem C24_LIB_overlay_in_compile_stream :
    (main sampleConfig ⟨none, some "/mnt/c/inc;;/usr/inc".toList, some "/mnt/c/lib".toList⟩
        ["foo.c".toList]).outcome
      = Outcome.exec false
          ("'/mnt/c/VC/bin/amd64/cl.exe' /Zc:threadSafeInit /GR 'foo.c'" ++
            " /I'c:/inc' /I'./usr/inc' /libpath'c:/lib' /I'c:/VC/include'" ++
            " /link /out:'a.exe' /libpath:'c:/VC/lib/amd64'").toList
    ∧ (main sampleConfig ⟨none, none, none⟩
        ["foo.c".toList, "-L".toList, "/mnt/c/lib".toList]).outcome
      = Outcome.exec false
          ("'/mnt/c/VC/bin/amd64/cl.exe' /Zc:threadSafeInit /GR 'foo.c' /I'c:/VC/include'" ++
            " /link /libpath:'c:/lib' /out:'a.exe' /libpath:'c:/VC/lib/amd64'").toList
    ∧ (main sampleConfig ⟨none, some [], some ";".toList⟩ ["foo.c".toList]).outcome
      = (main sampleConfig ⟨none, none, none⟩ ["foo.c".toList]).outcome := by
  refine ⟨by rfl, by rfl, by rfl⟩

/-- C26, as stated, fails for a failed `fork`: `main` returns the generic code 1,
not 127. -/
theorem C26_fork_failure_returns_1 :
    (invoke .forkFailed).1 = 1 ∧ (invoke .forkFailed).1 ≠ 127 := by
  decide

/-- C26 (amended): if the child exits normally with code `c` in 0..255, `main`
returns `c`; if the child was ended by a signal, if `waitpid` fails or if `fork`
fails, it returns 1; if `execl` fails in the child, it returns 127. -/
theorem C26_exit_status (c : Nat) (hc : c < 256) :
    (invoke (.waited (.exited c))).1 = c
    ∧ (invoke (.waited .signalled)).1 = 1
    ∧ (invoke .waitFailed).1 = 1
    ∧ (invoke .forkFailed).1 = 1
    ∧ (invoke (.waited .execFailed)).1 = 127 := by
  refine ⟨?_, rfl, rfl, rfl, rfl⟩
  simp only [invoke, wait_exited, Nat.mod_eq_of_lt hc]
  split <;> rfl

/-- C26 (amended) at the exit code 3. -/
theorem C26_exit_status_witness :
    (invoke (.waited (.exited 3))).1 = 3
    ∧ (invoke (.waited .signalled)).1 = 1
    ∧ (invoke .waitFailed).1 = 1
    ∧ (invoke .forkFailed).1 = 1
    ∧ (invoke (.waited .execFailed)).1 = 127 :=
  C26_exit_status 3 (by decide)

/-- The head of a string cut by `snprintf` with room for a character. -/
theorem snprintf_head (n : Nat) (c : Char) (s : Str) (hn : 2 ≤ n) :
    (snprintf n (c :: s)).head? = some c := by
  unfold snprintf
  obtain ⟨m, rfl⟩ : ∃ m, n = m + 2 := ⟨n - 2, by omega⟩
  simp

/-- The two shapes of `win_path` on an absolute path. -/
theorem win_path_absolute_cases (p : Str) (h0 : charAt p 0 = '/') :
    win_path p = snprintf (maxlen - 1) ('.' :: p)
    ∨ ∃ (c : Char) (tl : Str), strchr "cdefghijklmnopqrstuvwxyzab".toList c = true
        ∧ win_path p = snprintf (maxlen - 1) (c :: tl) := by
  by_cases hb : begins p "/mnt/".toList = true
  · by_cases hs : strchr "cdefghijklmnopqrstuvwxyzab".toList (charAt p 5) = true
    · by_cases h6 : strlen p = 6
      · right
        refine ⟨charAt p 5, ":/".toList, hs, ?_⟩
        simp only [String.toList] at hb hs ⊢
        simp [win_path, h0, hb, hs, h6]
      · by_cases h7 : charAt p 6 = '/'
        · right
          refine ⟨charAt p 5, ":/".toList ++ p.drop 7, hs, ?_⟩
          simp only [String.toList] at hb hs ⊢
          simp [win_path, h0, hb, hs, h6, h7]
        · left
          exact win_path_other p h0 (Or.inr (Or.inr ⟨h6, h7⟩))
    · left
      exact win_path_other p h0 (Or.inr (Or.inl (by simpa using hs)))
  · left
    exact win_path_other p h0 (Or.inl (by simpa using hb))

/-- C30: for every string `p`, `win_path p` does not begin with `/`, and
`win_path (win_path p) = win_path p`. -/
theorem C30_win_path_idempotent (p : Str) :
    (win_path p).head? ≠ some '/' ∧ win_path (win_path p) = win_path p := by
  have hrel : ∀ q : Str, q.head? ≠ some '/' → win_path q = q := by
    intro q hq
    apply win_path_relative
    rcases q with _ | ⟨a, tl⟩
    · decide
    · simpa [charAt] using hq
  have hhead : (win_path p).head? ≠ some '/' := by
    by_cases h0 : charAt p 0 = '/'
    · rcases win_path_absolute_cases p h0 with h | ⟨c, tl, hs, h⟩
      · rw [h, snprintf_head _ _ _ (by decide)]
        decide
      · rw [h, snprintf_head _ _ _ (by decide)]
        rcases strchr_table_cases c hs with hc | hc
        · intro e
          have e' : c = '/' := by simpa using e
          rw [e'] at hc
          exact absurd hc (by decide)
        · rw [hc]
          decide
    · rw [win_path_relative p h0]
      rcases p with _ | ⟨a, tl⟩
      · decide
      · simpa [charAt] using h0
  exact ⟨hhead, hrel _ hhead⟩

end Gcc2msvc

/-! ## Two runs of the scan side by side -/

namespace Gcc2msvc

theorem related_pure {Q : State → State → Prop} {s s' : State} {k : Nat} (h : Q s s') :
    Related Q (Pure.pure (s, k)) (Pure.pure (s', k)) := ⟨h, rfl⟩

theorem related_error {Q : State → State → Prop} {e : Exit} :
    Related Q (.error e) (.error e) := rfl

theorem related_ite {Q : State → State → Prop} {c : Prop} [Decidable c]
    {a b a' b' : Except Exit (State × Nat)} (ha : Related Q a a') (hb : Related Q b b') :
    Related Q (if c then a else b) (if c then a' else b') := by
  split
  · exact ha
  · exact hb

theorem related_bind {Q : State → State → Prop} {α : Type} {x : Except Exit α}
    {f f' : α → Except Exit (State × Nat)} (h : ∀ v, Related Q (f v) (f' v)) :
    Related Q (x >>= f) (x >>= f') := by
  cases x with
  | error err => exact related_error
  | ok v => exact h v

/-- Streams that differ by fixed prefixes before an iteration differ by the same
prefixes behind it, whatever the other locals are; the tokens consumed and an
early end are the same. -/
theorem stepLong_pre (c l : Str) (st st' : State) (arg : Str)
    (hc : st'.cmd = c ++ st.cmd) (hl : st'.lnk = l ++ st.lnk) :
    Related (fun s s' => s'.cmd = c ++ s.cmd ∧ s'.lnk = l ++ s.lnk)
      (stepLong st arg) (stepLong st' arg) := by
  unfold stepLong
  repeat' with_reducible first
    | apply related_ite
    | exact related_error
    | (apply related_bind; intro _)
    | (apply related_pure; constructor)
    | dsimp only
  all_goals simp [State.addCmd, State.addLnk, hc, hl]

theorem stepWl_pre (c l : Str) (st st' : State) (arg : Str) (rest : List Str) (k : Nat)
    (lopt : Str) (hc : st'.cmd = c ++ st.cmd) (hl : st'.lnk = l ++ st.lnk) :
    Related (fun s s' => s'.cmd = c ++ s.cmd ∧ s'.lnk = l ++ s.lnk)
      (stepWl st arg rest k lopt) (stepWl st' arg rest k lopt) := by
  cases h1 : argvAt arg rest (k + 1) <;> simp only [stepWl, h1] <;>
  repeat' with_reducible first
    | apply related_ite
    | exact related_error
    | (apply related_bind; intro _)
    | (apply related_pure; constructor)
    | dsimp only
  all_goals simp [State.addCmd, State.addLnk, hc, hl]

theorem stepW_pre (c l : Str) (st st' : State) (arg : Str) (rest : List Str)
    (hc : st'.cmd = c ++ st.cmd) (hl : st'.lnk = l ++ st.lnk) :
    Related (fun s s' => s'.cmd = c ++ s.cmd ∧ s'.lnk = l ++ s.lnk)
      (stepW st arg rest) (stepW st' arg rest) := by
  cases h1 : argvAt arg rest 1 <;> simp only [stepW, h1] <;>
  repeat' with_reducible first
    | apply related_ite
    | exact related_error
    | (apply related_bind; intro _)
    | (apply related_pure; constructor)
    | exact stepWl_pre c l st st' _ _ _ _ hc hl
    | dsimp only
  all_goals simp [State.addCmd, State.addLnk, hc, hl]

theorem stepShort_pre (c l : Str) (st st' : State) (arg : Str) (rest : List Str)
    (hc : st'.cmd = c ++ st.cmd) (hl : st'.lnk = l ++ st.lnk) :
    Related (fun s s' => s'.cmd = c ++ s.cmd ∧ s'.lnk = l ++ s.lnk)
      (stepShort st arg rest) (stepShort st' arg rest) := by
  cases h1 : argvAt arg rest 1 <;> simp only [stepShort, stepM, stepF, stepN, stepS, h1] <;>
  repeat' with_reducible first
    | apply related_ite
    | exact related_error
    | (apply related_bind; intro _)
    | (apply related_pure; constructor)
    | exact stepW_pre c l st st' _ _ hc hl
    | dsimp only
  all_goals simp [State.addCmd, State.addLnk, hc, hl]

theorem step_pre (c l : Str) (st st' : State) (arg : Str) (rest : List Str)
    (hc : st'.cmd = c ++ st.cmd) (hl : st'.lnk = l ++ st.lnk) :
    Related (fun s s' => s'.cmd = c ++ s.cmd ∧ s'.lnk = l ++ s.lnk)
      (step st arg rest) (step st' arg rest) := by
  unfold step
  repeat' with_reducible first
    | apply related_ite
    | (apply related_pure; constructor)
    | exact stepLong_pre c l st st' _ hc hl
    | exact stepShort_pre c l st st' _ _ hc hl
  all_goals simp [State.addCmd, State.addLnk, hc, hl]

end Gcc2msvc

namespace Gcc2msvc

/-- Setting the target to 32 bits before an iteration or behind it is the same. -/
theorem stepLong_bits (st : State) (arg : Str) :
    Related (fun s s' => s' = { s with bits := 32 })
      (stepLong st arg) (stepLong { st with bits := 32 } arg) := by
  unfold stepLong
  repeat' with_reducible first
    | apply related_ite
    | exact related_error
    | (apply related_bind; intro _)
    | apply related_pure
    | dsimp only

theorem stepWl_bits (st : State) (arg : Str) (rest : List Str) (k : Nat) (lopt : Str) :
    Related (fun s s' => s' = { s with bits := 32 })
      (stepWl st arg rest k lopt) (stepWl { st with bits := 32 } arg rest k lopt) := by
  cases h1 : argvAt arg rest (k + 1) <;> simp only [stepWl, h1] <;>
  repeat' with_reducible first
    | apply related_ite
    | exact related_error
    | (apply related_bind; intro _)
    | apply related_pure
    | dsimp only
  all_goals rfl

theorem stepW_bits (st : State) (arg : Str) (rest : List Str) :
    Related (fun s s' => s' = { s with bits := 32 })
      (stepW st arg rest) (stepW { st with bits := 32 } arg rest) := by
  cases h1 : argvAt arg rest 1 <;> simp only [stepW, h1] <;>
  repeat' with_reducible first
    | apply related_ite
    | exact related_error
    | (apply related_bind; intro _)
    | apply related_pure
    | exact stepWl_bits st _ _ _ _
    | dsimp only
  all_goals rfl

theorem stepShort_bits (st : State) (arg : Str) (rest : List Str) :
    Related (fun s s' => s' = { s with bits := 32 })
      (stepShort st arg rest) (stepShort { st with bits := 32 } arg rest) := by
  cases h1 : argvAt arg rest 1 <;> simp only [stepShort, stepM, stepF, stepN, stepS, h1] <;>
  repeat' with_reducible first
    | apply related_ite
    | exact related_error
    | (apply related_bind; intro _)
    | apply related_pure
    | exact stepW_bits st _ _
    | dsimp only
  all_goals rfl

theorem step_bits (st : State) (arg : Str) (rest : List Str) :
    Related (fun s s' => s' = { s with bits := 32 })
      (step st arg rest) (step { st with bits := 32 } arg rest) := by
  unfold step
  repeat' with_reducible first
    | apply related_ite
    | apply related_pure
    | exact stepLong_bits st _
    | exact stepShort_bits st _ _
  all_goals rfl

/-- A relation every iteration keeps is kept by the whole scan. -/
theorem scanEnd_related (Q : State → State → Prop)
    (hstep : ∀ (st st' : State) (arg : Str) (rest : List Str), Q st st' →
      Related Q (step st arg rest) (step st' arg rest))
    (args : List Str) :
    ∀ (k : Nat) (st st' : State), Q st st' →
      Related Q (scanEnd k st args) (scanEnd k st' args) := by
  induction args with
  | nil =>
    intro k st st' hq
    simp only [scanEnd]
    exact ⟨hq, rfl⟩
  | cons arg rest ih =>
    intro k st st' hq
    cases k with
    | succ k => exact ih k st st' hq
    | zero =>
      have hs := hstep st st' arg rest hq
      simp only [scanEnd]
      cases h1 : step st arg rest with
      | error e =>
        cases h2 : step st' arg rest with
        | error e' =>
          rw [h1, h2] at hs
          exact hs
        | ok r' =>
          rw [h1, h2] at hs
          exact hs.elim
      | ok r =>
        cases h2 : step st' arg rest with
        | error e' =>
          rw [h1, h2] at hs
          exact hs.elim
        | ok r' =>
          obtain ⟨s1, k1⟩ := r
          obtain ⟨s1', k1'⟩ := r'
          rw [h1, h2] at hs
          obtain ⟨hq1, hk⟩ := hs
          subst hk
          exact ih k1 s1 s1' hq1

/-- The scan from a state set to 32 bits is the scan from the state, set to 32
bits at the end. -/
theorem scanFrom_bits (args : List Str) (k : Nat) (st : State) :
    scanFrom k { st with bits := 32 } args
      = (scanFrom k st args).map (fun s => { s with bits := 32 }) := by
  have h := scanEnd_related (fun s s' => s' = { s with bits := 32 })
    (fun st st' arg rest hq => by subst hq; exact step_bits st arg rest) args k st _ rfl
  rw [scanFrom_eq_scanEnd, scanFrom_eq_scanEnd]
  cases h1 : scanEnd k st args with
  | error e =>
    cases h2 : scanEnd k { st with bits := 32 } args with
    | error e' =>
      rw [h1, h2] at h
      have h' : e = e' := h
      subst h'
      rfl
    | ok r' =>
      rw [h1, h2] at h
      exact h.elim
  | ok r =>
    cases h2 : scanEnd k { st with bits := 32 } args with
    | error e' =>
      rw [h1, h2] at h
      exact h.elim
    | ok r' =>
      obtain ⟨s1, k1⟩ := r
      obtain ⟨s1', k1'⟩ := r'
      rw [h1, h2] at h
      obtain ⟨hq, _⟩ := h
      subst hq
      rfl

/-- The scan from shifted streams ends with the streams shifted alike. -/
theorem scanFrom_pre (args : List Str) (k : Nat) (st st' : State) :
    (scanFrom k st' args).map (fun s => (s.cmd, s.lnk))
      = (scanFrom k { st with cmd := [], lnk := [] } args).map
          (fun s => (st'.cmd ++ s.cmd, st'.lnk ++ s.lnk)) := by
  have h := scanEnd_related (fun s s' => s'.cmd = st'.cmd ++ s.cmd ∧ s'.lnk = st'.lnk ++ s.lnk)
    (fun a a' arg rest hq => step_pre st'.cmd st'.lnk a a' arg rest hq.1 hq.2) args k
    { st with cmd := [], lnk := [] } st' ⟨by simp, by simp⟩
  rw [scanFrom_eq_scanEnd, scanFrom_eq_scanEnd]
  cases h1 : scanEnd k { st with cmd := [], lnk := [] } args with
  | error e =>
    cases h2 : scanEnd k st' args with
    | error e' =>
      rw [h1, h2] at h
      have h' : e = e' := h
      subst h'
      rfl
    | ok r' =>
      rw [h1, h2] at h
      exact h.elim
  | ok r =>
    cases h2 : scanEnd k st' args with
    | error e' =>
      rw [h1, h2] at h
      exact h.elim
    | ok r' =>
      obtain ⟨s1, k1⟩ := r
      obtain ⟨s1', k1'⟩ := r'
      rw [h1, h2] at h
      obtain ⟨⟨hc, hl⟩, _⟩ := h
      simp [Except.map, hc, hl]

end Gcc2msvc

/-! ## Mode flags along the scan -/

namespace Gcc2msvc

theorem stepLong_order (st : State) (arg : Str) :
    Yields (ModeOrder st) (stepLong st arg) := by
  unfold stepLong ModeOrder
  repeat' with_reducible first
    | apply Yields.ite
    | apply Yields.error
    | (apply Yields.bind; intro _)
    | apply Yields.pure
    | dsimp only
  all_goals (refine ⟨?_, ?_, ?_, ?_, ?_, ?_, ?_, ?_, ?_, ?_⟩ <;> first | exact id | exact fun _ => rfl)

theorem stepWl_order (st : State) (arg : Str) (rest : List Str) (k : Nat) (lopt : Str) :
    Yields (ModeOrder st) (stepWl st arg rest k lopt) := by
  unfold stepWl ModeOrder
  repeat' with_reducible first
    | apply Yields.ite
    | apply Yields.error
    | (apply Yields.bind; intro _)
    | apply Yields.pure
    | split
    | dsimp only
  all_goals (refine ⟨?_, ?_, ?_, ?_, ?_, ?_, ?_, ?_, ?_, ?_⟩ <;> exact id)

theorem stepW_order (st : State) (arg : Str) (rest : List Str) :
    Yields (ModeOrder st) (stepW st arg rest) := by
  unfold stepW
  repeat' with_reducible first
    | apply Yields.ite
    | apply Yields.error
    | (apply Yields.bind; intro _)
    | apply Yields.pure
    | exact stepWl_order st _ _ _ _
    | split
    | dsimp only
  all_goals (refine ⟨?_, ?_, ?_, ?_, ?_, ?_, ?_, ?_, ?_, ?_⟩ <;> exact id)

theorem stepShort_order (st : State) (arg : Str) (rest : List Str) :
    Yields (ModeOrder st) (stepShort st arg rest) := by
  unfold stepShort stepM stepF stepN stepS
  repeat' with_reducible first
    | apply Yields.ite
    | apply Yields.error
    | (apply Yields.bind; intro _)
    | apply Yields.pure
    | exact stepW_order st _ _
    | split
    | dsimp only
  all_goals (refine ⟨?_, ?_, ?_, ?_, ?_, ?_, ?_, ?_, ?_, ?_⟩ <;> first | exact id | exact fun _ => rfl)

/-- No iteration moves a mode flag back to its default. -/
theorem step_order (st : State) (arg : Str) (rest : List Str) :
    Yields (ModeOrder st) (step st arg rest) := by
  unfold step
  repeat' with_reducible first
    | apply Yields.ite
    | apply Yields.pure
    | exact stepLong_order st _
    | exact stepShort_order st _ _
  all_goals (refine ⟨?_, ?_, ?_, ?_, ?_, ?_, ?_, ?_, ?_, ?_⟩ <;> exact id)

theorem modeOrder_refl (st : State) : ModeOrder st st :=
  ⟨id, id, id, id, id, id, id, id, id, id⟩

theorem modeOrder_trans {a b c : State} (h1 : ModeOrder a b) (h2 : ModeOrder b c) :
    ModeOrder a c := by
  obtain ⟨a1, a2, a3, a4, a5, a6, a7, a8, a9, a10⟩ := h1
  obtain ⟨b1, b2, b3, b4, b5, b6, b7, b8, b9, b10⟩ := h2
  exact ⟨fun h => b1 (a1 h), fun h => b2 (a2 h), fun h => b3 (a3 h), fun h => b4 (a4 h),
    fun h => b5 (a5 h), fun h => b6 (a6 h), fun h => b7 (a7 h), fun h => b8 (a8 h),
    fun h => b9 (a9 h), fun h => b10 (a10 h)⟩

/-- No scan moves a mode flag back to its default. -/
theorem scanFrom_order (args : List Str) :
    ∀ (k : Nat) (st st' : State), scanFrom k st args = .ok st' → ModeOrder st st' := by
  induction args with
  | nil =>
    intro k st st' h
    cases k <;> simp [scanFrom] at h <;> subst h <;> exact modeOrder_refl _
  | cons arg rest ih =>
    intro k st st' h
    cases k with
    | succ k => exact ih k st st' (by simpa [scanFrom] using h)
    | zero =>
      simp only [scanFrom] at h
      cases hs : step st arg rest with
      | error e => rw [hs] at h; cases h
      | ok r =>
        obtain ⟨st1, k1⟩ := r
        rw [hs] at h
        exact modeOrder_trans (step_order st arg rest st1 k1 hs) (ih k1 st1 st' h)

/-- A property every iteration keeps and the iteration on `tok` establishes
holds at the end of every scan that meets `tok` at a loop head. -/
theorem scanFrom_sets (P : State → Prop) (tok : Str)
    (hkeep : ∀ (st : State) (arg : Str) (rest : List Str),
      Yields (fun s => P st → P s) (step st arg rest))
    (hset : ∀ (st : State) (rest : List Str), Yields P (step st tok rest))
    (args : List Str) :
    ∀ (k : Nat) (st st' : State), scanFrom k st args = .ok st' →
      (scanTrace k st args).any (fun p => p.2 == tok) = true → P st' := by
  have hall : ∀ (args : List Str) (k : Nat) (st st' : State),
      scanFrom k st args = .ok st' → P st → P st' := by
    intro args
    induction args with
    | nil =>
      intro k st st' h hp
      cases k <;> simp [scanFrom] at h <;> subst h <;> exact hp
    | cons arg rest ih =>
      intro k st st' h hp
      cases k with
      | succ k => exact ih k st st' (by simpa [scanFrom] using h) hp
      | zero =>
        simp only [scanFrom] at h
        cases hs : step st arg rest with
        | error e => rw [hs] at h; cases h
        | ok r =>
          obtain ⟨st1, k1⟩ := r
          rw [hs] at h
          exact ih k1 st1 st' h (hkeep st arg rest st1 k1 hs hp)
  induction args with
  | nil =>
    intro k st st' _ ht
    cases k <;> simp [scanTrace] at ht
  | cons arg rest ih =>
    intro k st st' h ht
    cases k with
    | succ k => exact ih k st st' (by simpa [scanFrom] using h) (by simpa [scanTrace] using ht)
    | zero =>
      simp only [scanFrom] at h
      simp only [scanTrace, List.any_cons, Bool.or_eq_true, beq_iff_eq] at ht
      cases hs : step st arg rest with
      | error e => rw [hs] at h; cases h
      | ok r =>
        obtain ⟨st1, k1⟩ := r
        rw [hs] at h ht
        rcases ht with ht | ht
        · subst ht
          exact hall rest k1 st1 st' h (hset st rest st1 k1 hs)
        · exact ih k1 st1 st' h ht

end Gcc2msvc

/-! ## Claims on the order of tokens -/

namespace Gcc2msvc

/-- The token `-m32` selects the 32-bit target and changes nothing else. -/
theorem step_m32 (st : State) (rest : List Str) :
    step st "-m32".toList rest = .ok ({ st with bits := 32 }, 0) := by
  rfl

theorem stepLong_driver (st : State) (arg : Str) (harg : begins arg "--cl=".toList = false) :
    Yields (fun s => s.use_default_driver = st.use_default_driver) (stepLong st arg) := by
  unfold stepLong
  repeat' with_reducible first
    | (apply Yields.dite <;> intro _)
    | apply Yields.error
    | (apply Yields.bind; intro _)
    | apply Yields.pure
    | dsimp only
  all_goals first
    | rfl
    | (exfalso; rw [harg] at *; contradiction)

theorem stepWl_driver (st : State) (arg : Str) (rest : List Str) (k : Nat) (lopt : Str) :
    Yields (fun s => s.use_default_driver = st.use_default_driver)
      (stepWl st arg rest k lopt) := by
  unfold stepWl
  repeat' with_reducible first
    | apply Yields.ite
    | apply Yields.error
    | (apply Yields.bind; intro _)
    | apply Yields.pure
    | split
    | dsimp only
  all_goals rfl

theorem stepW_driver (st : State) (arg : Str) (rest : List Str) :
    Yields (fun s => s.use_default_driver = st.use_default_driver) (stepW st arg rest) := by
  unfold stepW
  repeat' with_reducible first
    | apply Yields.ite
    | apply Yields.error
    | (apply Yields.bind; intro _)
    | apply Yields.pure
    | exact stepWl_driver st _ _ _ _
    | split
    | dsimp only
  all_goals rfl

theorem stepShort_driver (st : State) (arg : Str) (rest : List Str) :
    Yields (fun s => s.use_default_driver = st.use_default_driver) (stepShort st arg rest) := by
  unfold stepShort stepM stepF stepN stepS
  repeat' with_reducible first
    | apply Yields.ite
    | apply Yields.error
    | (apply Yields.bind; intro _)
    | apply Yields.pure
    | exact stepW_driver st _ _
    | split
    | dsimp only
  all_goals rfl

/-- Only a `--cl=` option changes `use_default_driver`. -/
theorem step_driver (st : State) (arg : Str) (rest : List Str)
    (harg : begins arg "--cl=".toList = false) :
    Yields (fun s => s.use_default_driver = st.use_default_driver) (step st arg rest) := by
  unfold step
  repeat' with_reducible first
    | apply Yields.ite
    | apply Yields.pure
    | exact stepLong_driver st _ harg
    | exact stepShort_driver st _ _
  all_goals rfl

theorem scanFrom_driver (args : List Str) :
    ∀ (k : Nat) (st st' : State), (∀ t ∈ args, begins t "--cl=".toList = false) →
      scanFrom k st args = .ok st' → st'.use_default_driver = st.use_default_driver := by
  induction args with
  | nil =>
    intro k st st' _ h
    cases k <;> simp [scanFrom] at h <;> subst h <;> rfl
  | cons arg rest ih =>
    intro k st st' hcl h
    have hrest : ∀ t ∈ rest, begins t "--cl=".toList = false :=
      fun t ht => hcl t (List.mem_cons_of_mem _ ht)
    cases k with
    | succ k => exact ih k st st' hrest (by simpa [scanFrom] using h)
    | zero =>
      simp only [scanFrom] at h
      cases hs : step st arg rest with
      | error e => rw [hs] at h; cases h
      | ok r =>
        obtain ⟨st1, k1⟩ := r
        rw [hs] at h
        rw [ih k1 st1 st' hrest h]
        exact step_driver st arg rest (hcl arg (List.mem_cons_self _ _)) st1 k1 hs

/-- What a scan that ends exactly leaves: a state, with no value token missing. -/
theorem endsExactly_scan (env : Env) (xs : List Str) (hx : endsExactly env xs = true) :
    ∃ sx, scanEnd 0 (State.init env) xs = .ok (sx, 0) ∧ scan env xs = .ok sx := by
  obtain ⟨sx, h⟩ := (endsExactly_iff env xs).1 hx
  refine ⟨sx, h, ?_⟩
  unfold scan
  rw [scanFrom_eq_scanEnd, h]
  rfl

/-- C22: for all `xs` and `ys` with no `--cl=` option, where the scan of `xs`
ends exactly at its last token, the run for `xs ++ [-m32] ++ ys` is the run for
`[-m32] ++ xs ++ ys`, and the state its scan leaves selects the 32-bit default
driver and the 32-bit default library paths. -/
theorem C22_m32_position_independent (cfg : Config) (env : Env) (xs ys : List Str)
    (hx : endsExactly env xs = true)
    (hcl : ∀ t ∈ xs ++ ys, begins t "--cl=".toList = false) :
    main cfg env (xs ++ ["-m32".toList] ++ ys) = main cfg env (["-m32".toList] ++ xs ++ ys)
    ∧ ∀ st, scan env (xs ++ ["-m32".toList] ++ ys) = .ok st →
        resolve_driver cfg st = unix_path cfg.DEFAULT_CL_CMD_X86
        ∧ driver_default cfg st = cfg.DEFAULT_CL_CMD_X86
        ∧ lib_paths_default cfg st = cfg.DEFAULT_LIBPATHS_X86 := by
  obtain ⟨sx, hsx, _⟩ := endsExactly_scan env xs hx
  have hL : scan env (xs ++ ["-m32".toList] ++ ys)
      = (scanFrom 0 sx ys).map (fun s => { s with bits := 32 }) := by
    have e : xs ++ ["-m32".toList] ++ ys = xs ++ ("-m32".toList :: ys) := by simp
    unfold scan
    rw [e, scanFrom_append xs _ 0 _ sx hsx]
    simp only [scanFrom, step_m32]
    exact scanFrom_bits ys 0 sx
  have hR : scan env (["-m32".toList] ++ xs ++ ys)
      = (scanFrom 0 sx ys).map (fun s => { s with bits := 32 }) := by
    have e : ["-m32".toList] ++ xs ++ ys = "-m32".toList :: (xs ++ ys) := by simp
    unfold scan
    rw [e]
    simp only [scanFrom, step_m32]
    rw [scanFrom_bits, scanFrom_append xs ys 0 _ sx hsx]
  refine ⟨by simp only [main, hL, hR], ?_⟩
  intro st hst
  have hbits : st.bits = 32 := by
    rw [hL] at hst
    cases h : scanFrom 0 sx ys with
    | error e => rw [h] at hst; cases hst
    | ok s =>
      rw [h] at hst
      cases hst
      rfl
  have hdrv : st.use_default_driver = true := by
    have hall : ∀ t ∈ xs ++ ["-m32".toList] ++ ys, begins t "--cl=".toList = false := by
      intro t ht
      simp only [List.mem_append, List.mem_singleton] at ht
      rcases ht with (ht | ht) | ht
      · exact hcl t (List.mem_append_left _ ht)
      · subst ht
        decide
      · exact hcl t (List.mem_append_right _ ht)
    exact scanFrom_driver _ 0 _ st hall hst
  simp [resolve_driver, driver_default, lib_paths_default, hbits, hdrv]

/-- C22 on `foo.c -m32 -O2` against `-m32 foo.c -O2`. -/
theorem C22_m32_position_independent_witness :
    main sampleConfig ⟨none, none, none⟩ (["foo.c".toList] ++ ["-m32".toList] ++ ["-O2".toList])
      = main sampleConfig ⟨none, none, none⟩
          (["-m32".toList] ++ ["foo.c".toList] ++ ["-O2".toList]) :=
  (C22_m32_position_independent sampleConfig ⟨none, none, none⟩ ["foo.c".toList]
    ["-O2".toList] (by decide) (by decide)).1

end Gcc2msvc

namespace Gcc2msvc

/-- C25, as stated, fails when an information option accompanies
`--print-only`: with `--help-cl`, `--help-link` or `--version` the run hands a
command to `system` before print-only is looked at, and assembles and prints
no command line; with `-print-search-dirs` it prints the search directories
instead. -/
theorem C25_information_options_run_first :
    (main sampleConfig ⟨none, none, none⟩
        ["--print-only".toList, "--help-cl".toList]).outcome
      = Outcome.system "'/mnt/c/VC/bin/amd64/cl.exe' /help 2>&1 | cat".toList
    ∧ (main sampleConfig ⟨none, none, none⟩
        ["--print-only".toList, "--help-link".toList]).outcome.executes
      = some "'/mnt/c/VC/bin/amd64/link.exe' 2>&1 | cat".toList
    ∧ (main sampleConfig ⟨none, none, none⟩
        ["--print-only".toList, "--version".toList]).outcome.executes
      = some ("'C:/VC/bin/amd64/cl.exe' /help 2>&1 | head -n3 ; " ++
          "'C:/VC/bin/cl.exe' /help 2>&1 | head -n3 ; " ++
          "'/mnt/c/VC/bin/amd64/link.exe' 2>&1 | head -n3").toList
    ∧ (main sampleConfig ⟨none, none, none⟩
        ["--print-only".toList, "-print-search-dirs".toList]).outcome
      = Outcome.searchDirs "C:/VC/bin/amd64/cl.exe".toList "/I'c:/VC/include'".toList
          "/libpath:'c:/VC/lib/amd64'".toList := by
  refine ⟨by rfl, by rfl, by rfl, by rfl⟩

/-- The token `--print-only` sets `print_only` and `verbose`. -/
theorem step_print_only (st : State) (rest : List Str) :
    step st "--print-only".toList rest
      = .ok ({ st with verbose := true, print_only := true }, 0) := by
  rfl

/-- C25 (amended): for every argument list in which `--print-only` is scanned
as an option, whose scan runs to the end and sets none of the information
requests (`--help-cl`, `--help-link`, `--version`, `-print-search-dirs`) and whose
driver resolves, the run assembles the full command, prints it, returns 0
(outcome `printed`) and hands no command to a shell. -/
theorem C25_print_only (cfg : Config) (env : Env) (args : List Str) (st : State) (d : Str)
    (hscan : scan env args = .ok st)
    (hp : scannedIn env "--print-only".toList args = true)
    (hinfo : st.print_help_cl = false ∧ st.print_help_link = false ∧
      st.print_version = false ∧ st.print_search_dirs = false)
    (hd : resolve_driver cfg st = .ok d) :
    (main cfg env args).outcome
      = Outcome.printed true (assemble cfg.DEFAULT_INCLUDES (lib_paths_default cfg st) env st d)
    ∧ (main cfg env args).outcome.executes = none
    ∧ (main cfg env args).outcome.echoed
      = some (assemble cfg.DEFAULT_INCLUDES (lib_paths_default cfg st) env st d) := by
  have hpv : st.print_only = true ∧ st.verbose = true :=
    scanFrom_sets (fun s => s.print_only = true ∧ s.verbose = true) "--print-only".toList
      (fun a arg rest s k hs hP =>
        have ho := step_order a arg rest s k hs
        ⟨ho.2.2.2.2.2.2.2.1 hP.1, ho.2.2.2.2.2.2.2.2.1 hP.2⟩)
      (fun a rest s k hs => by
        rw [step_print_only] at hs
        cases hs
        exact ⟨rfl, rfl⟩)
      args 0 (State.init env) st hscan hp
  obtain ⟨h1, h2, h3, h4⟩ := hinfo
  have hm : (main cfg env args).outcome
      = Outcome.printed true
          (assemble cfg.DEFAULT_INCLUDES (lib_paths_default cfg st) env st d) := by
    simp [main, hscan, finish, hd, h1, h2, h3, h4, hpv.1, hpv.2]
  rw [hm]
  exact ⟨rfl, rfl, rfl⟩

/-- C25 (amended) on `--print-only -c foo.c`. -/
theorem C25_print_only_witness :
    (main sampleConfig ⟨none, none, none⟩
        ["--print-only".toList, "-c".toList, "foo.c".toList]).outcome
      = Outcome.printed true
          "'/mnt/c/VC/bin/amd64/cl.exe' /Zc:threadSafeInit /GR /c 'foo.c' /I'c:/VC/include'".toList :=
  (C25_print_only sampleConfig ⟨none, none, none⟩
    ["--print-only".toList, "-c".toList, "foo.c".toList]
    { State.init ⟨none, none, none⟩ with
      cmd := " /c 'foo.c'".toList, verbose := true, print_only := true, do_link := false }
    "/mnt/c/VC/bin/amd64/cl.exe".toList (by decide) (by decide) (by decide) (by decide)).1

end Gcc2msvc

/-! ## The two streams -/

namespace Gcc2msvc

theorem stepLong_streams (st : State) (arg : Str) :
    Yields (fun s => (s.cmd = st.cmd ∧ ∃ x, s.lnk = st.lnk ++ x)
        ∨ (s.lnk = st.lnk ∧ ∃ x, s.cmd = st.cmd ++ x)) (stepLong st arg) := by
  unfold stepLong
  repeat' with_reducible first
    | apply Yields.ite
    | apply Yields.error
    | (apply Yields.bind; intro _)
    | apply Yields.pure
    | dsimp only
  all_goals exact Or.inl ⟨rfl, [], (List.append_nil _).symm⟩

theorem stepWl_streams (st : State) (arg : Str) (rest : List Str) (k : Nat) (lopt : Str) :
    Yields (fun s => (s.cmd = st.cmd ∧ ∃ x, s.lnk = st.lnk ++ x)
        ∨ (s.lnk = st.lnk ∧ ∃ x, s.cmd = st.cmd ++ x)) (stepWl st arg rest k lopt) := by
  unfold stepWl
  repeat' with_reducible first
    | apply Yields.ite
    | apply Yields.error
    | (apply Yields.bind; intro _)
    | apply Yields.pure
    | split
    | dsimp only
  all_goals first
    | exact Or.inl ⟨rfl, [], (List.append_nil _).symm⟩
    | exact Or.inl ⟨rfl, _, rfl⟩

theorem stepW_streams (st : State) (arg : Str) (rest : List Str) :
    Yields (fun s => (s.cmd = st.cmd ∧ ∃ x, s.lnk = st.lnk ++ x)
        ∨ (s.lnk = st.lnk ∧ ∃ x, s.cmd = st.cmd ++ x)) (stepW st arg rest) := by
  unfold stepW
  repeat' with_reducible first
    | apply Yields.ite
    | apply Yields.error
    | (apply Yields.bind; intro _)
    | apply Yields.pure
    | exact stepWl_streams st _ _ _ _
    | split
    | dsimp only
  all_goals first
    | exact Or.inl ⟨rfl, [], (List.append_nil _).symm⟩
    | exact Or.inr ⟨rfl, _, rfl⟩

theorem stepShort_streams (st : State) (arg : Str) (rest : List Str) :
    Yields (fun s => (s.cmd = st.cmd ∧ ∃ x, s.lnk = st.lnk ++ x)
        ∨ (s.lnk = st.lnk ∧ ∃ x, s.cmd = st.cmd ++ x)) (stepShort st arg rest) := by
  unfold stepShort stepM stepF stepN stepS
  repeat' with_reducible first
    | apply Yields.ite
    | apply Yields.error
    | (apply Yields.bind; intro _)
    | apply Yields.pure
    | exact stepW_streams st _ _
    | split
    | dsimp only
  all_goals first
    | exact Or.inl ⟨rfl, [], (List.append_nil _).symm⟩
    | exact Or.inl ⟨rfl, _, rfl⟩
    | exact Or.inr ⟨rfl, _, rfl⟩

/-- C27: every scan step, from any state on any token with any tokens behind
it, extends at most one of the two streams and only appends: either the
compile stream is unchanged and the old link stream is a prefix of the new one,
or the link stream is unchanged and the old compile stream is a prefix of the
new one. -/
theorem C27_one_stream_per_step (st s : State) (arg : Str) (rest : List Str) (k : Nat)
    (h : step st arg rest = .ok (s, k)) :
    (s.cmd = st.cmd ∧ ∃ x, s.lnk = st.lnk ++ x)
    ∨ (s.lnk = st.lnk ∧ ∃ x, s.cmd = st.cmd ++ x) := by
  have hy : Yields (fun s => (s.cmd = st.cmd ∧ ∃ x, s.lnk = st.lnk ++ x)
      ∨ (s.lnk = st.lnk ∧ ∃ x, s.cmd = st.cmd ++ x)) (step st arg rest) := by
    unfold step
    repeat' with_reducible first
      | apply Yields.ite
      | apply Yields.pure
      | exact stepLong_streams st _
      | exact stepShort_streams st _ _
    exact Or.inr ⟨rfl, _, rfl⟩
  exact hy s k h

/-- C27 on the token `-nodefaultlibs`, which extends the link stream only. -/
theorem C27_one_stream_per_step_witness :
    step (State.init ⟨none, none, none⟩) "-nodefaultlibs".toList []
      = .ok ({ State.init ⟨none, none, none⟩ with
          lnk := " /nodefaultlib".toList, default_lib_paths := false }, 0)
    ∧ ((({ State.init ⟨none, none, none⟩ with
          lnk := " /nodefaultlib".toList, default_lib_paths := false } : State).cmd
        = (State.init ⟨none, none, none⟩).cmd
        ∧ ∃ x, ({ State.init ⟨none, none, none⟩ with
          lnk := " /nodefaultlib".toList, default_lib_paths := false } : State).lnk
          = (State.init ⟨none, none, none⟩).lnk ++ x)
      ∨ (({ State.init ⟨none, none, none⟩ with
          lnk := " /nodefaultlib".toList, default_lib_paths := false } : State).lnk
        = (State.init ⟨none, none, none⟩).lnk
        ∧ ∃ x, ({ State.init ⟨none, none, none⟩ with
          lnk := " /nodefaultlib".toList, default_lib_paths := false } : State).cmd
          = (State.init ⟨none, none, none⟩).cmd ++ x)) :=
  ⟨by decide, C27_one_stream_per_step (State.init ⟨none, none, none⟩)
    { State.init ⟨none, none, none⟩ with
      lnk := " /nodefaultlib".toList, default_lib_paths := false }
    "-nodefaultlibs".toList [] 0 (by decide)⟩

/-- C28: for all `xs` and `ys` where the scan of `xs` ends exactly at its last
token, leaving the state `sx`, the scan of `xs ++ ys` ends as the scan of `ys`
does (early return and fault included), and when it runs to the end its
compile stream is the compile stream of `xs` followed by that of `ys`, and its
link stream the link stream of `xs` followed by that of `ys`. -/
theorem C28_streams_accumulate (env : Env) (xs ys : List Str) (sx : State)
    (hx : endsExactly env xs = true) (hsx : scan env xs = .ok sx) :
    (scan env (xs ++ ys)).map (fun s => (s.cmd, s.lnk))
      = (scan env ys).map (fun s => (sx.cmd ++ s.cmd, sx.lnk ++ s.lnk)) := by
  obtain ⟨sx', hend, hsx'⟩ := endsExactly_scan env xs hx
  rw [hsx] at hsx'
  cases hsx'
  unfold scan
  rw [scanFrom_append xs ys 0 _ sx hend]
  exact scanFrom_pre ys 0 (State.init env) sx

/-- C28 on `-DX` followed by `-DX`: the flag is emitted twice. -/
theorem C28_streams_accumulate_witness :
    (scan ⟨none, none, none⟩ (["-DX".toList] ++ ["-DX".toList, "-lfoo".toList])).map
        (fun s => (s.cmd, s.lnk))
      = .ok (" /D'X' /D'X'".toList, " 'foo.lib'".toList) :=
  C28_streams_accumulate ⟨none, none, none⟩ ["-DX".toList] ["-DX".toList, "-lfoo".toList]
    { State.init ⟨none, none, none⟩ with cmd := " /D'X'".toList } (by decide) (by decide)

end Gcc2msvc

/-! ## Compile-only and the link stream -/

namespace Gcc2msvc

/-- The attached linker sub-forms extend the link stream only. -/
theorem step_Wl_attached (st : State) (N : Str) (rest : List Str) (hN : N ≠ []) :
    step st "-Wl,--whole-archive".toList rest = .ok (st.addLnk " /wholearchive".toList, 0)
    ∧ step st ("-Wl,--out-implib,".toList ++ N) rest
      = .ok (st.addLnk (" /implib:'".toList ++ N ++ "'".toList), 0)
    ∧ step st ("-Wl,-output-def,".toList ++ N) rest
      = .ok (st.addLnk (" /def:'".toList ++ N ++ "'".toList), 0) := by
  rcases N with _ | ⟨a, tl⟩
  · exact absurd rfl hN
  · refine ⟨rfl, ?_, ?_⟩
    · simp [step, stepShort, stepW, linker_opt, stepWl, charAt, strlen, offset, begins,
        strncmp_eq, bind, Except.bind, pure, Except.pure]
    · simp [step, stepShort, stepW, linker_opt, stepWl, charAt, strlen, offset, begins,
        strncmp_eq, bind, Except.bind, pure, Except.pure]

end Gcc2msvc

/-! ## Mode flags never return to their default -/

namespace Gcc2msvc

theorem sameModes_refl (r : Except Exit (State × Nat)) : SameModes r r := by
  intro s s' k k' h h'
  rw [h] at h'
  cases h'
  rfl

theorem sameModes_error {e : Exit} {r : Except Exit (State × Nat)} :
    SameModes (.error e) r := by
  intro s s' k k' h
  cases h

theorem sameModes_pure {s s' : State} {k k' : Nat}
    (h : ({ s with cmd := [], lnk := [] } : State) = { s' with cmd := [], lnk := [] }) :
    SameModes (Pure.pure (s, k)) (Pure.pure (s', k')) := by
  intro a a' j j' e e'
  cases e
  cases e'
  exact h

theorem sameModes_ite {c : Prop} [Decidable c] {a b a' b' : Except Exit (State × Nat)}
    (ha : SameModes a a') (hb : SameModes b b') :
    SameModes (if c then a else b) (if c then a' else b') := by
  split
  · exact ha
  · exact hb

theorem sameModes_bind {α : Type} {x : Except Exit α} {f f' : α → Except Exit (State × Nat)}
    (h : ∀ v, SameModes (f v) (f' v)) : SameModes (x >>= f) (x >>= f') := by
  cases x with
  | error err => exact sameModes_error
  | ok v => exact h v

theorem sameModes_ite_right {c : Prop} [Decidable c] {r a' b' : Except Exit (State × Nat)}
    (ha : SameModes r a') (hb : SameModes r b') : SameModes r (if c then a' else b') := by
  split
  · exact ha
  · exact hb

theorem sameModes_bind_right {α : Type} {r : Except Exit (State × Nat)} {x : Except Exit α}
    {f' : α → Except Exit (State × Nat)} (h : ∀ v, SameModes r (f' v)) :
    SameModes r (x >>= f') := by
  cases x with
  | error err =>
    intro s s' k k' _ h'
    cases h'
  | ok v => exact h v

theorem stepW_sameModes (st : State) (arg : Str) (v : Str) (tl : List Str) :
    SameModes (stepW st arg []) (stepW st arg (v :: tl)) := by
  by_cases h3 : strlen arg = 3
  · rcases arg with _ | ⟨a, _ | ⟨b, _ | ⟨c, _ | ⟨d, tl'⟩⟩⟩⟩ <;> simp [strlen] at h3
    by_cases hl : c = 'l'
    · have hE : stepW st [a, b, c] [] = .error (.fault .nullDeref) := by
        simp [stepW, linker_opt, stepWl, hl, argvAt, beginsAt, begins, charAt,
          strncmp_eq, strlen, bind, Except.bind, pure, Except.pure]
      rw [hE]
      exact sameModes_error
    · have hE : stepW st [a, b, c] [] = stepW st [a, b, c] (v :: tl) := by
        simp [stepW, hl, argvAt_zero, charAt]
      rw [hE]
      exact sameModes_refl _
  · simp only [stepW, linker_opt, stepWl, h3, argvAt_one, argvAt_zero, Nat.zero_add,
      beq_iff_eq, if_false, List.head?]
    repeat' with_reducible first
      | apply sameModes_ite
      | exact sameModes_error
      | (apply sameModes_bind; intro _)
      | apply sameModes_pure
      | exact sameModes_refl _
      | apply sameModes_ite_right
      | (apply sameModes_bind_right; intro _)
    all_goals rfl

theorem stepShort_sameModes (st : State) (arg : Str) (v : Str) (tl : List Str) :
    SameModes (stepShort st arg []) (stepShort st arg (v :: tl)) := by
  simp only [stepShort, argvAt_one, List.head?]
  repeat' with_reducible first
    | apply sameModes_ite
    | exact sameModes_error
    | (apply sameModes_bind; intro _)
    | apply sameModes_pure
    | exact stepW_sameModes _ _ _ _
    | exact sameModes_refl _
    | apply sameModes_ite_right
    | (apply sameModes_bind_right; intro _)
  all_goals rfl

/-- Which tokens stand behind a token does not change what its iteration does
to the locals other than the streams. -/
theorem step_sameModes (st : State) (arg : Str) (ys : List Str) :
    SameModes (step st arg []) (step st arg ys) := by
  cases ys with
  | nil => exact sameModes_refl _
  | cons v tl =>
    simp only [step]
    repeat' with_reducible first
      | apply sameModes_ite
      | apply sameModes_pure
      | exact stepShort_sameModes _ _ _ _
      | exact sameModes_refl _
    all_goals rfl

/-- States that agree on the locals other than the streams are in mode order. -/
theorem modeOrder_of_same (s s' : State)
    (h : ({ s with cmd := [], lnk := [] } : State) = { s' with cmd := [], lnk := [] }) :
    ModeOrder s s' := by
  cases s
  cases s'
  simp only [State.mk.injEq] at h
  obtain ⟨-, -, -, e7, e9, e8, e6, -, -, -, -, e1, e10, e4, e5, e2, e3⟩ := h
  subst e1 e2 e3 e4 e5 e6 e7 e8 e9 e10
  exact modeOrder_refl _

/-- The mode flags at the end of the scan of `xs ++ ys` are in mode order behind
those at the end of the scan of `xs`. -/
theorem scanFrom_prefix_order (xs ys : List Str) :
    ∀ (k : Nat) (st sx s : State), scanFrom k st xs = .ok sx →
      scanFrom k st (xs ++ ys) = .ok s → ModeOrder sx s := by
  induction xs with
  | nil =>
    intro k st sx s hx hxy
    have e : sx = st := by
      cases k <;> simp [scanFrom] at hx <;> exact hx.symm
    subst e
    exact scanFrom_order ys k sx s hxy
  | cons arg rest ih =>
    intro k st sx s hx hxy
    cases k with
    | succ k =>
      exact ih k st sx s (by simpa [scanFrom] using hx) (by simpa [scanFrom] using hxy)
    | zero =>
      rw [List.cons_append] at hxy
      simp only [scanFrom] at hx hxy
      cases h1 : step st arg rest with
      | error e => rw [h1] at hx; cases hx
      | ok r =>
        obtain ⟨s1, k1⟩ := r
        rw [h1] at hx
        cases h2 : step st arg (rest ++ ys) with
        | error e => rw [h2] at hxy; cases hxy
        | ok r' =>
          obtain ⟨s1', k1'⟩ := r'
          rw [h2] at hxy
          cases rest with
          | nil =>
            have e : sx = s1 := by
              cases k1 <;> simp [scanFrom] at hx <;> exact hx.symm
            subst e
            have hm := step_sameModes st arg ys sx s1' k1 k1' h1 (by simpa using h2)
            exact modeOrder_trans (modeOrder_of_same _ _ hm)
              (scanFrom_order _ k1' s1' s (by simpa using hxy))
          | cons v tl =>
            have hh : step st arg (v :: tl) = step st arg (v :: tl ++ ys) :=
              step_head st arg _ _ rfl
            rw [hh, h2] at h1
            cases h1
            exact ih k1 s1 sx s hx hxy

/-- C31: for all argument lists `xs` and `ys` whose scans run to the end, if
after scanning `xs` linking, RTTI, thread-safe statics, the default include
paths or the default library paths are disabled, or an output name is
recorded, or the target is 32-bit, then the same holds after scanning
`xs ++ ys`: no later token restores a default. -/
theorem C31_mode_flags_one_way (env : Env) (xs ys : List Str) (sx s : State)
    (hx : scan env xs = .ok sx) (hxy : scan env (xs ++ ys) = .ok s) :
    (sx.do_link = false → s.do_link = false)
    ∧ (sx.rtti = false → s.rtti = false)
    ∧ (sx.threadsafe_statics = false → s.threadsafe_statics = false)
    ∧ (sx.use_default_inc_paths = false → s.use_default_inc_paths = false)
    ∧ (sx.default_lib_paths = false → s.default_lib_paths = false)
    ∧ (sx.have_outname = true → s.have_outname = true)
    ∧ (sx.bits = 32 → s.bits = 32) := by
  obtain ⟨a1, a2, a3, a4, a5, a6, a7, _⟩ :=
    scanFrom_prefix_order xs ys 0 (State.init env) sx s hx hxy
  exact ⟨a1, a2, a3, a4, a5, a6, a7⟩

/-- C31 on `-fno-rtti -m32 -o` followed by `-frtti -frtti -m64 x.c`: the trailing
`-o` of the first list takes the first `-frtti` as its value in the joined list,
the second `-frtti` and `-m64` are scanned as flags, and RTTI stays disabled,
the target stays 32-bit and the output name stays recorded. -/
theorem C31_mode_flags_one_way_witness :
    scan ⟨none, none, none⟩ ["-fno-rtti".toList, "-m32".toList, "-o".toList]
      = .ok { State.init ⟨none, none, none⟩ with rtti := false, bits := 32, have_outname := true }
    ∧ scan ⟨none, none, none⟩
        (["-fno-rtti".toList, "-m32".toList, "-o".toList]
          ++ ["-frtti".toList, "-frtti".toList, "-m64".toList, "x.c".toList])
      = .ok { State.init ⟨none, none, none⟩ with
          cmd := " 'x.c'".toList, lnk := " /out:'-frtti'".toList,
          rtti := false, bits := 32, have_outname := true }
    ∧ ((true = false → true = false)
      ∧ (false = false → false = false)
      ∧ (true = false → true = false)
      ∧ (true = false → true = false)
      ∧ (true = false → true = false)
      ∧ (true = true → true = true)
      ∧ (32 = 32 → 32 = 32)) :=
  ⟨by decide, by decide,
    C31_mode_flags_one_way ⟨none, none, none⟩
      ["-fno-rtti".toList, "-m32".toList, "-o".toList]
      ["-frtti".toList, "-frtti".toList, "-m64".toList, "x.c".toList]
      { State.init ⟨none, none, none⟩ with rtti := false, bits := 32, have_outname := true }
      { State.init ⟨none, none, none⟩ with
        cmd := " 'x.c'".toList, lnk := " /out:'-frtti'".toList,
        rtti := false, bits := 32, have_outname := true }
      (by decide) (by decide)⟩

end Gcc2msvc

/-! ## Linker sub-forms, value attached or separate -/

namespace Gcc2msvc

/-- Within the token the block read is the plain offset. -/
theorem argvOffset_within (arg : Str) (rest : List Str) (k : Nat) (h : k ≤ strlen arg) :
    argvOffset arg rest k = offset arg k := by
  cases rest with
  | nil => rfl
  | cons v tl => simp [argvOffset, offset, h]

/-- Behind the terminator of `arg` the block read continues in the next token. -/
theorem argvOffset_next (arg v : Str) (tl : List Str) (k : Nat) (h : strlen arg < k) :
    argvOffset arg (v :: tl) k = argvOffset v tl (k - (strlen arg + 1)) := by
  simp [argvOffset, Nat.not_le.mpr h]

theorem extends_refl (r : Except Exit (State × Nat)) : Extends r r :=
  fun _ h => h

theorem extends_error {e : Exit} {r : Except Exit (State × Nat)} : Extends (.error e) r := by
  intro x h
  cases h

theorem extends_ite {c : Prop} [Decidable c] {a b a' b' : Except Exit (State × Nat)}
    (ha : Extends a a') (hb : Extends b b') :
    Extends (if c then a else b) (if c then a' else b') := by
  split
  · exact ha
  · exact hb

theorem extends_bind {α : Type} {x : Except Exit α}
    {f f' : α → Except Exit (State × Nat)} (h : ∀ v, Extends (f v) (f' v)) :
    Extends (x >>= f) (x >>= f') := by
  cases x with
  | error e => exact extends_error
  | ok v => exact h v

/-- A read that stays within the token yields the same string in the block. -/
theorem extends_offset (arg : Str) (rest : List Str) (k : Nat)
    (f : Str → Except Exit (State × Nat)) :
    Extends (offset arg k >>= f) (argvOffset arg rest k >>= f) := by
  by_cases h : k ≤ strlen arg
  · rw [argvOffset_within arg rest k h]
    exact extends_refl _
  · have e : offset arg k = .error (.fault .outOfBounds) := by simp [offset, h]
    rw [e]
    exact extends_error

theorem stepWl_extends (st : State) (arg : Str) (rest : List Str) (k : Nat) (lopt : Str) :
    Extends (stepWl st arg rest k lopt) (stepWlBlock st arg rest k lopt) := by
  simp only [stepWl, stepWlBlock]
  repeat' with_reducible first
    | exact extends_refl _
    | exact extends_offset _ _ _ _
    | apply extends_ite
    | (apply extends_bind; intro _)

theorem stepW_extends (st : State) (arg : Str) (rest : List Str) :
    Extends (stepW st arg rest) (stepWBlock st arg rest) := by
  simp only [stepW, stepWBlock]
  repeat' with_reducible first
    | exact extends_refl _
    | exact stepWl_extends _ _ _ _ _
    | apply extends_ite
    | (apply extends_bind; intro _)

theorem stepShort_extends (st : State) (arg : Str) (rest : List Str) :
    Extends (stepShort st arg rest) (stepShortBlock st arg rest) := by
  simp only [stepShort, stepShortBlock]
  repeat' with_reducible first
    | exact extends_refl _
    | exact stepW_extends _ _ _
    | apply extends_ite

/-- Wherever the plain reading defines an iteration of the loop, the reading in
the argument block yields the same state and the same count. -/
theorem step_extends (st : State) (arg : Str) (rest : List Str) :
    Extends (step st arg rest) (stepBlock st arg rest) := by
  simp only [step, stepBlock]
  repeat' with_reducible first
    | exact extends_refl _
    | exact stepShort_extends _ _ _
    | apply extends_ite

/-- Wherever the plain reading defines the scan, the reading in the argument
block yields the same state. -/
theorem scanFrom_extends (args : List Str) :
    ∀ (k : Nat) (st s : State), scanFrom k st args = .ok s → scanFromBlock k st args = .ok s := by
  induction args with
  | nil =>
    intro k st s h
    cases k <;> simpa [scanFrom, scanFromBlock] using h
  | cons arg rest ih =>
    intro k st s h
    cases k with
    | succ k =>
      simp only [scanFrom] at h
      simp only [scanFromBlock]
      exact ih k st s h
    | zero =>
      simp only [scanFrom] at h
      simp only [scanFromBlock]
      cases h1 : step st arg rest with
      | error e => rw [h1] at h; cases h
      | ok r =>
        obtain ⟨s1, k1⟩ := r
        rw [h1] at h
        rw [step_extends st arg rest _ h1]
        exact ih k1 s1 s h

/-- An iteration on one of the attached `-Wl` forms is the same in both readings. -/
theorem stepBlock_Wl_attached (st : State) (N : Str) (rest : List Str) (hN : N ≠ []) :
    stepBlock st "-Wl,--whole-archive".toList rest = .ok (st.addLnk " /wholearchive".toList, 0)
    ∧ stepBlock st ("-Wl,--out-implib,".toList ++ N) rest
      = .ok (st.addLnk (" /implib:'".toList ++ N ++ "'".toList), 0)
    ∧ stepBlock st ("-Wl,-output-def,".toList ++ N) rest
      = .ok (st.addLnk (" /def:'".toList ++ N ++ "'".toList), 0) :=
  ⟨step_extends _ _ _ _ (step_Wl_attached st N rest hN).1,
    step_extends _ _ _ _ (step_Wl_attached st N rest hN).2.1,
    step_extends _ _ _ _ (step_Wl_attached st N rest hN).2.2⟩

/-- An iteration on the bare `-Wl` with the linker option in the next token: the
reads `arg+17` and `arg+16` pass the four bytes of `-Wl` and its terminator and
the thirteen or twelve characters of the sub-form, and yield the name. -/
theorem stepBlock_Wl_separate (st : State) (N : Str) (rest : List Str) (hN : N ≠ []) :
    stepBlock st "-Wl".toList ("--whole-archive".toList :: rest)
      = .ok (st.addLnk " /wholearchive".toList, 1)
    ∧ stepBlock st "-Wl".toList (("--out-implib,".toList ++ N) :: rest)
      = .ok (st.addLnk (" /implib:'".toList ++ N ++ "'".toList), 1)
    ∧ stepBlock st "-Wl".toList (("-output-def,".toList ++ N) :: rest)
      = .ok (st.addLnk (" /def:'".toList ++ N ++ "'".toList), 1) := by
  rcases N with _ | ⟨a, tl⟩
  · exact absurd rfl hN
  · refine ⟨rfl, ?_, ?_⟩
    · simp [stepBlock, stepShortBlock, stepWBlock, linker_opt, stepWlBlock, argvOffset, argvAt,
        charAt, strlen, offset, begins, strncmp_eq, bind, Except.bind, pure, Except.pure]
      rw [argvOffset_within _ _ _ (by simp [strlen])]
      simp [offset, strlen]
    · simp [stepBlock, stepShortBlock, stepWBlock, linker_opt, stepWlBlock, argvOffset, argvAt,
        charAt, strlen, offset, begins, strncmp_eq, bind, Except.bind, pure, Except.pure]
      rw [argvOffset_within _ _ _ (by simp [strlen])]
      simp [offset, strlen]

/-- The plain reading is not defined on the separate pair: `arg+17` lies behind
the terminator of the three-character token `-Wl`.  In the argument block it is
the start of the name. -/
theorem separate_value_read :
    offset "-Wl".toList 17 = .error (.fault .outOfBounds)
    ∧ argvOffset "-Wl".toList ["--out-implib,N".toList] 17 = .ok "N".toList
    ∧ argvOffset "-Wl".toList ["-output-def,N".toList] 16 = .ok "N".toList := by
  decide

/-- C20: for every non-empty name `N`, from every state and with any tokens
behind, one iteration of the scan loop on the attached token
`-Wl,--out-implib,N` and one on the separate pair `-Wl` `--out-implib,N` both
append exactly ` /implib:'N'` to the link stream and change nothing else;
likewise `-Wl,-output-def,N` and `-Wl` `-output-def,N` both append ` /def:'N'`,
and `-Wl,--whole-archive` and `-Wl` `--whole-archive` both append
` /wholearchive`.  The attached token consumes no further token, the separate
pair consumes its value, so that the scan goes on alike behind both spellings.
The reads `arg+17` and `arg+16` of the separate pair are taken in the argument
block, where the value token lies right behind `-Wl` and its terminator. -/
theorem C20_linker_sub_forms (st : State) (N : Str) (rest : List Str) (hN : N ≠ []) :
    (stepBlock st ("-Wl,--out-implib,".toList ++ N) rest
        = .ok (st.addLnk (" /implib:'".toList ++ N ++ "'".toList), 0)
      ∧ stepBlock st "-Wl".toList (("--out-implib,".toList ++ N) :: rest)
        = .ok (st.addLnk (" /implib:'".toList ++ N ++ "'".toList), 1))
    ∧ (stepBlock st ("-Wl,-output-def,".toList ++ N) rest
        = .ok (st.addLnk (" /def:'".toList ++ N ++ "'".toList), 0)
      ∧ stepBlock st "-Wl".toList (("-output-def,".toList ++ N) :: rest)
        = .ok (st.addLnk (" /def:'".toList ++ N ++ "'".toList), 1))
    ∧ (stepBlock st "-Wl,--whole-archive".toList rest
        = .ok (st.addLnk " /wholearchive".toList, 0)
      ∧ stepBlock st "-Wl".toList ("--whole-archive".toList :: rest)
        = .ok (st.addLnk " /wholearchive".toList, 1))
    ∧ (scanFromBlock 0 st (("-Wl,--out-implib,".toList ++ N) :: rest)
        = scanFromBlock 0 (st.addLnk (" /implib:'".toList ++ N ++ "'".toList)) rest
      ∧ scanFromBlock 0 st ("-Wl".toList :: ("--out-implib,".toList ++ N) :: rest)
        = scanFromBlock 0 (st.addLnk (" /implib:'".toList ++ N ++ "'".toList)) rest)
    ∧ (scanFromBlock 0 st (("-Wl,-output-def,".toList ++ N) :: rest)
        = scanFromBlock 0 (st.addLnk (" /def:'".toList ++ N ++ "'".toList)) rest
      ∧ scanFromBlock 0 st ("-Wl".toList :: ("-output-def,".toList ++ N) :: rest)
        = scanFromBlock 0 (st.addLnk (" /def:'".toList ++ N ++ "'".toList)) rest)
    ∧ (scanFromBlock 0 st ("-Wl,--whole-archive".toList :: rest)
        = scanFromBlock 0 (st.addLnk " /wholearchive".toList) rest
      ∧ scanFromBlock 0 st ("-Wl".toList :: "--whole-archive".toList :: rest)
        = scanFromBlock 0 (st.addLnk " /wholearchive".toList) rest) := by
  obtain ⟨a1, a2, a3⟩ := stepBlock_Wl_attached st N rest hN
  obtain ⟨s1, s2, s3⟩ := stepBlock_Wl_separate st N rest hN
  refine ⟨⟨a2, s2⟩, ⟨a3, s3⟩, ⟨a1, s1⟩, ⟨?_, ?_⟩, ⟨?_, ?_⟩, ⟨?_, ?_⟩⟩
  · simp only [scanFromBlock, a2]
  · simp only [scanFromBlock, s2]
  · simp only [scanFromBlock, a3]
  · simp only [scanFromBlock, s3]
  · simp only [scanFromBlock, a1]
  · simp only [scanFromBlock, s1]

/-- C20 on the name `foo.lib`: the scans of `-Wl,--out-implib,foo.lib` and of
`-Wl` `--out-implib,foo.lib` leave the same state, with ` /implib:'foo.lib'` as
the link stream; likewise for `-output-def,foo.def`. -/
theorem C20_linker_sub_forms_witness :
    scanBlock ⟨none, none, none⟩ ["-Wl,--out-implib,foo.lib".toList]
      = .ok ((State.init ⟨none, none, none⟩).addLnk " /implib:'foo.lib'".toList)
    ∧ scanBlock ⟨none, none, none⟩ ["-Wl".toList, "--out-implib,foo.lib".toList]
      = .ok ((State.init ⟨none, none, none⟩).addLnk " /implib:'foo.lib'".toList)
    ∧ scanBlock ⟨none, none, none⟩ ["-Wl".toList, "-output-def,foo.def".toList]
      = .ok ((State.init ⟨none, none, none⟩).addLnk " /def:'foo.def'".toList)
    ∧ stepBlock (State.init ⟨none, none, none⟩) "-Wl".toList ["--out-implib,foo.lib".toList]
      = .ok ((State.init ⟨none, none, none⟩).addLnk " /implib:'foo.lib'".toList, 1) :=
  ⟨by decide, by decide, by decide,
    (C20_linker_sub_forms (State.init ⟨none, none, none⟩) "foo.lib".toList []
      (by decide)).1.2⟩

end Gcc2msvc
